import Mathlib

/-!
# Verification of the getdocs-ts type-shape extraction core

This file gives a shallow embedding, in Lean 4, of the algorithmic core of
`src/index.ts` (the file also present as `src/unnamed/part_004`, which is the
version all line references below point into): the serialized type-description
data model (`BindingType`), the union post-processing of `Context.getType`,
the default-argument elision of `Context.getReferenceType` together with
`compareTypes`/`compareSignature`, the symbol ordering of `compareSymbols` /
`Context.gatherSymbols`, the comment extraction `getComments`/`stripComment`,
the structural-recursion guard of `Context.getObjectType`, the constructor
selection of `Context.getClassType`, and the classification/filtering logic of
`Context.itemForSymbol` and `Context.getParams`.

TypeScript-checker functionality that the repository merely *consumes*
(`TypeChecker.getTypeOfSymbolAtLocation`, `getNonNullableType`, flag queries,
…) is abstracted: either as explicit fields of small model structures, or as
function parameters, mirroring the call structure of the source.  JavaScript
strings become Lean `String`s, arrays become `List`s, `undefined`-able values
become `Option`s, thrown exceptions become `Except String`.
-/

/-! ## The serialized description tree

`BindingType` from `src/index.ts` lines 33-47, together with `CallSignature`
(lines 49-54) represented as a tuple `(type, params, returns, typeParams)`.
Only the fields that `compareTypes`/`compareSignature` and the union logic
inspect are kept; `params` entries are `Param`s in the source, but
`compareTypes` treats them purely as `BindingType`s, which is how they are
modelled here.  Absent optional fields are `none`.
-/
inductive BT where
  | mk (type : String) (typeSource typeParamSource : Option String)
       (properties instanceProperties : Option (List (String × BT)))
       (typeArgs : Option (List BT))
       (signatures : Option (List (String × List BT × Option BT × Option (List BT))))

/-- The `type` tag field of a description node. -/
def BT.type : BT → String
  | .mk t _ _ _ _ _ _ => t

/-- The `typeSource` field. -/
def BT.typeSource : BT → Option String
  | .mk _ s _ _ _ _ _ => s

/-- The `typeParamSource` field. -/
def BT.typeParamSource : BT → Option String
  | .mk _ _ s _ _ _ _ => s

/-- The `properties` field. -/
def BT.properties : BT → Option (List (String × BT))
  | .mk _ _ _ p _ _ _ => p

/-- The `instanceProperties` field. -/
def BT.instanceProperties : BT → Option (List (String × BT))
  | .mk _ _ _ _ p _ _ => p

/-- The `typeArgs` field. -/
def BT.typeArgs : BT → Option (List BT)
  | .mk _ _ _ _ _ a _ => a

/-- The `signatures` field. -/
def BT.signatures : BT → Option (List (String × List BT × Option BT × Option (List BT)))
  | .mk _ _ _ _ _ _ s => s

/-- A bare node `{type: tag}` with no other fields, e.g. `{type: "boolean"}`
(line 193) or the recursion-guard result `{type: "Object"}` (line 279). -/
def bareBT (tag : String) : BT := .mk tag none none none none none none

instance : Inhabited BT := ⟨bareBT ""⟩

/-! ## Union post-processing (`Context.getType`, lines 189-198)

After the members of a union/intersection are resolved into `args`, the code

* collapses a `true` literal plus a `false` literal into one `boolean` member
  (lines 191-193), and
* moves the first `null` member, then the first `undefined` member, to the end
  of the list unless it is already last (lines 194-198).
-/

/-- Lines 191-193: if `union` and both a `"true"`- and a `"false"`-tagged
member occur, replace them by a single leading `{type: "boolean"}`. -/
def unionBooleanMerge (union : Bool) (args : List BT) : List BT :=
  if union && args.any (fun a => a.type == "true") && args.any (fun a => a.type == "false") then
    bareBT "boolean" :: args.filter (fun a => a.type != "true" && a.type != "false")
  else args

/-- Lines 195-198, one iteration: `findIndex` the first member tagged `tp`;
if found and not already last, `splice` it out and `push` it at the end. -/
def moveTypeToEnd (tp : String) (args : List BT) : List BT :=
  let i := args.findIdx (fun a => a.type == tp)
  if i < args.length && i != args.length - 1 then
    args.eraseIdx i ++ [args.getD i default]
  else args

/-- The complete union member post-processing of lines 189-198: boolean merge,
then the `for (let tp of ["null", "undefined"])` loop. -/
def unionPostprocess (union : Bool) (args : List BT) : List BT :=
  moveTypeToEnd "undefined" (moveTypeToEnd "null" (unionBooleanMerge union args))

/-! ### Proof machinery for the union transform -/

/-- Recursive characterization of `moveTypeToEnd` (proof helper): the first
member tagged `tp`, when it exists and is not last, moves to the end. -/
def moveAux (tp : String) : List BT → List BT
  | [] => []
  | a :: rest =>
    if a.type == tp then (if rest.isEmpty then a :: rest else rest ++ [a])
    else a :: moveAux tp rest

theorem moveTypeToEnd_cons_pos (tp : String) (a : BT) (rest : List BT)
    (h : (a.type == tp) = true) :
    moveTypeToEnd tp (a :: rest) =
      if rest.isEmpty then a :: rest else rest ++ [a] := by
  rcases rest with _ | ⟨b, rest'⟩
  · simp [moveTypeToEnd, List.findIdx_cons, h]
  · simp [moveTypeToEnd, List.findIdx_cons, h]

theorem moveTypeToEnd_cons_neg (tp : String) (a : BT) (rest : List BT)
    (h : (a.type == tp) = false) :
    moveTypeToEnd tp (a :: rest) = a :: moveTypeToEnd tp rest := by
  have hle : List.findIdx (fun b => b.type == tp) rest ≤ rest.length :=
    List.findIdx_le_length (fun (b : BT) => b.type == tp)
  have hfind : List.findIdx (fun b => b.type == tp) (a :: rest) =
      List.findIdx (fun b => b.type == tp) rest + 1 := by
    simp [List.findIdx_cons, h]
  set i := List.findIdx (fun b => b.type == tp) rest with hidef
  simp only [moveTypeToEnd, hfind, List.length_cons]
  by_cases hc : i < rest.length ∧ i + 1 ≠ rest.length
  · have hb1 : (decide (i + 1 < rest.length + 1) && (i + 1 != rest.length + 1 - 1)) = true := by
      simp only [Bool.and_eq_true, decide_eq_true_eq, bne_iff_ne, ne_eq]
      omega
    have hb2 : (decide (i < rest.length) && (i != rest.length - 1)) = true := by
      simp only [Bool.and_eq_true, decide_eq_true_eq, bne_iff_ne, ne_eq]
      omega
    rw [if_pos hb1, if_pos hb2, List.eraseIdx_cons_succ, List.getD_cons_succ]
    simp
  · have hb1 : ¬((decide (i + 1 < rest.length + 1) && (i + 1 != rest.length + 1 - 1)) = true) := by
      simp only [Bool.and_eq_true, decide_eq_true_eq, bne_iff_ne, ne_eq, not_and, not_not]
      omega
    have hb2 : ¬((decide (i < rest.length) && (i != rest.length - 1)) = true) := by
      simp only [Bool.and_eq_true, decide_eq_true_eq, bne_iff_ne, ne_eq, not_and, not_not]
      omega
    rw [if_neg hb1, if_neg hb2]

theorem moveTypeToEnd_eq_moveAux (tp : String) (l : List BT) :
    moveTypeToEnd tp l = moveAux tp l := by
  induction l with
  | nil => rfl
  | cons a rest ih =>
    rcases hb : (a.type == tp) with _ | _
    · rw [moveTypeToEnd_cons_neg tp a rest hb, ih, moveAux, hb]
      simp
    · rw [moveTypeToEnd_cons_pos tp a rest hb, moveAux, hb]
      simp

/-- If exactly one member of `l` is tagged `tp`, the move sends it to the end
(and keeps everything else in place, in order). -/
theorem moveAux_unique (tp : String) (l : List BT) (e : BT)
    (h : l.filter (fun a => a.type == tp) = [e]) :
    moveAux tp l = l.filter (fun a => !(a.type == tp)) ++ [e] := by
  induction l with
  | nil => simp at h
  | cons a rest ih =>
    rcases hb : (a.type == tp) with _ | _
    · rw [List.filter_cons_of_neg (by simp [hb])] at h
      rw [moveAux, hb]
      simp only [Bool.false_eq_true, if_false]
      rw [List.filter_cons_of_pos (by simp [hb]), ih h]
      simp
    · rw [List.filter_cons_of_pos (by simp [hb])] at h
      have hae : a = e := by simpa using congrArg (fun l => l.headD default) h
      have hrest : rest.filter (fun a => a.type == tp) = [] := by
        simpa using congrArg List.tail h
      have hrestkeep : rest.filter (fun a => !(a.type == tp)) = rest := by
        rw [List.filter_eq_self]
        intro x hx
        simp only [Bool.not_eq_true']
        exact by
          have := (List.filter_eq_nil_iff).1 hrest x hx
          simpa using this
      rw [moveAux, hb]
      simp only [if_true]
      rw [List.filter_cons_of_neg (by simp [hb]), hrestkeep, hae]
      rcases rest with _ | ⟨b, rest'⟩
      · simp [hae]
      · simp

/-- **C3, counterexample.**  The claim asserts that `null`/`undefined` union
members are moved to the end *preserving their relative order to each other*.
For the member list `[undefined, string, null]` the code first finds `null`
already last (no move), then moves `undefined` to the very end, producing
`[string, null, undefined]` — the relative order of the two members is
inverted, not preserved (which would give `[string, undefined, null]`). -/
theorem getdocs_c3_counterexample :
    unionPostprocess true [bareBT "undefined", bareBT "string", bareBT "null"] =
      [bareBT "string", bareBT "null", bareBT "undefined"] ∧
    [bareBT "string", bareBT "null", bareBT "undefined"] ≠
      [bareBT "string", bareBT "undefined", bareBT "null"] := by
  constructor
  · rfl
  · intro h
    have := congrArg (fun l => (l.getD 1 default).type) h
    simp [bareBT, BT.type] at this

/-- **C3, amended claim, proved.**  For a union member list containing a
`true` literal, a `false` literal, no pre-existing `boolean` member, exactly
one `null`-tagged member `en` and exactly one `undefined`-tagged member `eu`,
the post-processing of `Context.getType` (lines 189-198) yields: one leading
`boolean` member, the remaining members with both boolean literals dropped in
their original order, and then — always in this fixed order, regardless of
their original relative order — the `null` member followed by the `undefined`
member at the end.  The result contains exactly one `boolean` member and no
`true`/`false` literal. -/
theorem getdocs_c3_theorem (args : List BT) (en eu : BT)
    (ht : args.any (fun a => a.type == "true") = true)
    (hf : args.any (fun a => a.type == "false") = true)
    (hbool : ∀ a ∈ args, a.type ≠ "boolean")
    (hn : args.filter (fun a => a.type == "null") = [en])
    (hu : args.filter (fun a => a.type == "undefined") = [eu]) :
    unionPostprocess true args =
      bareBT "boolean" ::
        (args.filter (fun a => a.type != "true" && a.type != "false" &&
          a.type != "null" && a.type != "undefined") ++ [en, eu]) ∧
    ((unionPostprocess true args).filter (fun a => a.type == "boolean")).length = 1 ∧
    (∀ a ∈ unionPostprocess true args, a.type ≠ "true" ∧ a.type ≠ "false") := by
  have hen : en.type = "null" := by
    have hmem : en ∈ args.filter (fun a => a.type == "null") := by rw [hn]; simp
    simpa using (List.mem_filter.1 hmem).2
  have heu : eu.type = "undefined" := by
    have hmem : eu ∈ args.filter (fun a => a.type == "undefined") := by rw [hu]; simp
    simpa using (List.mem_filter.1 hmem).2
  have hmerge : unionBooleanMerge true args =
      bareBT "boolean" :: args.filter (fun a => a.type != "true" && a.type != "false") := by
    simp [unionBooleanMerge, ht, hf]
  have habs1 : args.filter (fun a => (a.type == "null") &&
      (a.type != "true" && a.type != "false")) = args.filter (fun a => a.type == "null") := by
    apply List.filter_congr
    intro a _
    cases h : (a.type == "null")
    · simp
    · have h' : a.type = "null" := by simpa using h
      simp [h']
  have habs2 : args.filter (fun a => ((a.type == "undefined") && !(a.type == "null")) &&
      (a.type != "true" && a.type != "false")) =
      args.filter (fun a => a.type == "undefined") := by
    apply List.filter_congr
    intro a _
    cases h : (a.type == "undefined")
    · simp
    · have h' : a.type = "undefined" := by simpa using h
      simp [h']
  -- first move: the unique `null` member goes to the end
  have hfn : (bareBT "boolean" ::
      args.filter (fun a => a.type != "true" && a.type != "false")).filter
        (fun a => a.type == "null") = [en] := by
    rw [List.filter_cons_of_neg (by simp [bareBT, BT.type]), List.filter_filter, habs1, hn]
  have hmove1 : moveTypeToEnd "null" (unionBooleanMerge true args) =
      bareBT "boolean" ::
        ((args.filter (fun a => a.type != "true" && a.type != "false")).filter
          (fun a => !(a.type == "null")) ++ [en]) := by
    rw [hmerge, moveTypeToEnd_eq_moveAux, moveAux_unique _ _ en hfn,
        List.filter_cons_of_pos (by simp [bareBT, BT.type]), List.cons_append]
  -- second move: the unique `undefined` member goes to the end
  have hfu : (bareBT "boolean" ::
      ((args.filter (fun a => a.type != "true" && a.type != "false")).filter
        (fun a => !(a.type == "null")) ++ [en])).filter
          (fun a => a.type == "undefined") = [eu] := by
    rw [List.filter_cons_of_neg (by simp [bareBT, BT.type]), List.filter_append,
        List.filter_filter, List.filter_filter, habs2, hu]
    simp [hen]
  have hmove2 : unionPostprocess true args =
      bareBT "boolean" ::
        ((((args.filter (fun a => a.type != "true" && a.type != "false")).filter
            (fun a => !(a.type == "null"))).filter (fun a => !(a.type == "undefined"))
          ++ [en]) ++ [eu]) := by
    rw [unionPostprocess, hmove1, moveTypeToEnd_eq_moveAux, moveAux_unique _ _ eu hfu,
        List.filter_cons_of_pos (by simp [bareBT, BT.type]), List.filter_append,
        List.cons_append]
    have hfen : List.filter (fun a => !(a.type == "undefined")) [en] = [en] := by
      simp [hen]
    rw [hfen]
  have hclean : (((args.filter (fun a => a.type != "true" && a.type != "false")).filter
      (fun a => !(a.type == "null"))).filter (fun a => !(a.type == "undefined"))) =
      args.filter (fun a => a.type != "true" && a.type != "false" &&
        a.type != "null" && a.type != "undefined") := by
    rw [List.filter_filter, List.filter_filter]
    apply congrArg (fun p => List.filter p args)
    funext a
    cases h1 : (a.type == "true") <;> cases h2 : (a.type == "false") <;>
      cases h3 : (a.type == "null") <;> cases h4 : (a.type == "undefined") <;>
      simp [bne, h1, h2, h3, h4]
  have hmain : unionPostprocess true args =
      bareBT "boolean" ::
        (args.filter (fun a => a.type != "true" && a.type != "false" &&
          a.type != "null" && a.type != "undefined") ++ [en, eu]) := by
    rw [hmove2, hclean]
    simp
  refine ⟨hmain, ?_, ?_⟩
  · rw [hmain]
    rw [List.filter_cons_of_pos (by simp [bareBT, BT.type])]
    have hrest : (args.filter (fun a => a.type != "true" && a.type != "false" &&
        a.type != "null" && a.type != "undefined") ++ [en, eu]).filter
          (fun a => a.type == "boolean") = [] := by
      rw [List.filter_append]
      have h1 : (args.filter (fun a => a.type != "true" && a.type != "false" &&
          a.type != "null" && a.type != "undefined")).filter
            (fun a => a.type == "boolean") = [] := by
        rw [List.filter_eq_nil_iff]
        intro a ha
        have := hbool a (List.mem_of_mem_filter ha)
        simpa using this
      rw [h1]
      simp [hen, heu]
    rw [hrest]
    rfl
  · intro a ha
    rw [hmain] at ha
    rcases List.mem_cons.1 ha with h | h
    · subst h
      refine ⟨?_, ?_⟩ <;> simp [bareBT, BT.type]
    · rcases List.mem_append.1 h with h | h
      · have := (List.mem_filter.1 h).2
        simp only [Bool.and_eq_true, bne_iff_ne, ne_eq] at this
        exact ⟨this.1.1.1, this.1.1.2⟩
      · have hae : a = en ∨ a = eu := by simpa using h
        rcases hae with rfl | rfl
        · exact ⟨by rw [hen]; decide, by rw [hen]; decide⟩
        · exact ⟨by rw [heu]; decide, by rw [heu]; decide⟩

/-- Witness for `getdocs_c3_theorem` at a concrete five-member union. -/
theorem getdocs_c3_witness :
    unionPostprocess true
      [bareBT "true", bareBT "undefined", bareBT "string", bareBT "false", bareBT "null"] =
      bareBT "boolean" :: ([bareBT "string"] ++ [bareBT "null", bareBT "undefined"]) :=
  (getdocs_c3_theorem
    [bareBT "true", bareBT "undefined", bareBT "string", bareBT "false", bareBT "null"]
    (bareBT "null") (bareBT "undefined") rfl rfl (by decide) rfl rfl).1

/-! ## Structural comparison (`compareTypes` / `compareSignature`, lines 561-584)

`paramMap` is the live argument array (`args as any`, line 418): JavaScript
indexes an array by a *canonical* numeric string, which `paramLookup` mirrors.
The `while` substitution loop of line 562 is given explicit fuel
(`paramMap.length + 1` steps, enough to fully resolve any acyclic chain; on a
cyclic chain the JavaScript original would not terminate).  `compareTypes`
itself carries explicit fuel for the same bookkeeping reason; every theorem
below supplies a concrete, amply large fuel. -/

/-- Decimal parse of a character list (`none` on a non-digit or empty). -/
def parseDigits : List Char → Option Nat → Option Nat
  | [], acc => acc
  | c :: cs, acc =>
    if c.isDigit then
      parseDigits cs (some ((acc.getD 0) * 10 + (c.toNat - 48)))
    else none

/-- JavaScript `paramMap[s]` where `paramMap` is an array: a hit only for a
canonical numeric index string within bounds. -/
def paramLookup (paramMap : List BT) (s : String) : Option BT :=
  match parseDigits s.toList none with
  | some j => if toString j == s then paramMap.get? j else none
  | none => none

/-- Line 562: `while (b.typeParamSource && paramMap[b.typeParamSource]) b = …`
(`""` is falsy in JavaScript, hence the explicit empty-string check). -/
def substParam (paramMap : List BT) : Nat → BT → BT
  | 0, b => b
  | fuel + 1, b =>
    match b.typeParamSource with
    | none => b
    | some s =>
      if s == "" then b
      else
        match paramLookup paramMap s with
        | none => b
        | some b' => substParam paramMap fuel b'

/-- JavaScript truthiness of an optional field. -/
def optPresent {α : Type} : Option α → Bool
  | none => false
  | some _ => true

/-- JavaScript object-key lookup on a property map. -/
def lookupKey (props : List (String × BT)) (k : String) : Option BT :=
  match props.find? (fun p => p.1 == k) with
  | some p => some p.2
  | none => none

mutual

/-- Lines 561-576.  Note on the property branch (line 568): the source tests
`b.properties![k] || compareTypes(…)`; a property value present in `b` is a
truthy object, so the recursive comparison short-circuits away whenever the
key exists, and reaching it (key missing) would throw a `TypeError` in
JavaScript — that unreachable-by-claims path is modelled as `false`. -/
def compareTypes (paramMap : List BT) : Nat → BT → BT → Bool
  | 0, _, _ => false
  | fuel + 1, a, b0 =>
    let b := substParam paramMap (paramMap.length + 1) b0
    if (a.type != b.type) || (a.typeSource != b.typeSource) ||
       (a.typeParamSource != b.typeParamSource) ||
       (optPresent a.properties != optPresent b.properties) ||
       optPresent a.instanceProperties || optPresent b.instanceProperties ||
       (optPresent a.typeArgs != optPresent b.typeArgs) ||
       (optPresent a.signatures != optPresent b.signatures) then false
    else
      let propsOk := match a.properties, b.properties with
        | some ap, some bp =>
          (ap.map Prod.fst).length == (bp.map Prod.fst).length &&
            (ap.map Prod.fst).all (fun k => (lookupKey bp k).isSome)
        | _, _ => true
      if !propsOk then false
      else
        let argsOk := match a.typeArgs, b.typeArgs with
          | some aa, some ba =>
            aa.length == ba.length &&
              (aa.zip ba).all (fun p => compareTypes paramMap fuel p.1 p.2)
          | _, _ => true
        if !argsOk then false
        else
          match a.signatures, b.signatures with
          | some sa, some sb =>
            sa.length == sb.length &&
              (sa.zip sb).all (fun p => compareSignature paramMap fuel p.1 p.2)
          | _, _ => true

/-- Lines 578-584, on the tuple encoding `(type, params, returns, typeParams)`
of a `CallSignature`. -/
def compareSignature (paramMap : List BT) :
    Nat → (String × List BT × Option BT × Option (List BT)) →
      (String × List BT × Option BT × Option (List BT)) → Bool
  | 0, _, _ => false
  | fuel + 1, (ta, pa, ra, tpa), (tb, pb, rb, tpb) =>
    if (optPresent ra != optPresent rb) || (ta != tb) ||
       (optPresent tpa != optPresent tpb) then false
    else if (pa.length != pb.length) ||
        !((pa.zip pb).all (fun p => compareTypes paramMap fuel p.1 p.2)) then false
    else
      match ra, rb with
      | some x, some y => compareTypes paramMap fuel x y
      | _, _ => true

end

/-! ## Reference resolution and default-argument elision
(`Context.getReferenceType`, lines 395-426)

The elision loop resolves source-level types in two places: the concrete
arguments (line 403) and each parameter's declared default (line 417), the
latter in a context extended with an environment binding every parameter name
to its supplied resolved argument under the id `String(i)` (lines 412-416).
`STy` is the source-type fragment these resolutions range over: a type
parameter reference (handled by `getType`'s `TypeFlags.TypeParameter` branch,
lines 205-209) or a nominal reference to an available symbol carrying its
target's declared type parameters — name plus optional default — (handled by
the `ObjectFlags.Reference` branch, line 236, which re-enters
`getReferenceType` with `arityType` set).  `src` is the already-computed
`typeSource` (`none` for a builtin, line 398). -/
inductive STy where
  | tparam (name : String)
  | ref (name : String) (src : Option String)
        (params : List (String × Option STy)) (args : List STy)

/-- An entry of `Context.typeParams` as consulted by the type-parameter branch
of `getType`: only `name` (looked up, line 206) and `id` (emitted as
`typeParamSource`, line 208) matter there. -/
structure EnvParam where
  name : String
  id : String

/-- `{type: name, typeSource?: src, typeArgs?: targs}` as built at
lines 396-398 and 422. -/
def mkRefBT (name : String) (src : Option String) (targs : Option (List BT)) : BT :=
  .mk name src none none none targs none

/-- `{type: name, typeParamSource: found.id}`, line 208. -/
def mkTParamBT (name : String) (idv : String) : BT :=
  .mk name none (some idv) none none none none

/-- Lines 412-416: `cx = this.addParams(args.map((a, i) => {name: targetParams[i].symbol.name,
id: String(i), …}))` — the new parameters are prepended to the outer ones
(`addParams`, line 85), so the nearest binding wins on lookup. -/
def buildEnv (params : List (String × Option STy)) (args : List BT)
    (tps : List EnvParam) : List EnvParam :=
  ((List.range args.length).map
    (fun i => ⟨((params.get? i).map Prod.fst).getD "", toString i⟩)) ++ tps

/-- `Array.prototype.map` over an `Except`-producing resolver, propagating the
first thrown error. -/
def mapExcept (f : STy → Except String BT) : List STy → Except String (List BT)
  | [] => .ok []
  | t :: ts =>
    match f t with
    | .error e => .error e
    | .ok v =>
      match mapExcept f ts with
      | .error e => .error e
      | .ok vs => .ok (v :: vs)

/-- The elision loop of lines 407-421, iterating `i` from
`targetParams.length - 1` down to `0` (the counter argument is `i + 1`):
stop at the first parameter lacking a default; otherwise resolve the default
in the shared environment (built once, from the full argument list), compare
it against the supplied argument with the *live* argument array as
`paramMap`, pop on match, stop on mismatch.  `getTy` stands for
`cx.getType`; `cfuel` is bookkeeping fuel for `compareTypes`. -/
def elideLoop (getTy : List EnvParam → STy → Except String BT) (cfuel : Nat)
    (tps : List EnvParam) (params : List (String × Option STy)) (fullArgs : List BT) :
    Nat → List BT → Option (List EnvParam) → Except String (List BT)
  | 0, args, _ => .ok args
  | k + 1, args, env =>
    match (params.get? k).bind Prod.snd with
    | none => .ok args
    | some dflt =>
      let env' := match env with
        | some e => e
        | none => buildEnv params fullArgs tps
      match getTy env' dflt with
      | .error e => .error e
      | .ok compare =>
        match args.get? k with
        | none => .error "missing type argument"
        | some argK =>
          if compareTypes args cfuel argK compare then
            elideLoop getTy cfuel tps params fullArgs k args.dropLast (some env')
          else .ok args

/-- Lines 395-426 with `typeArgs` and `arityType` present (the call shape of
line 236): record `type`/`typeSource`, slice the arguments to the target's
arity, resolve them, run the elision loop, and emit `typeArgs` only when the
surviving list is non-empty (lines 402/422). -/
def getReferenceTypeF (getTy : List EnvParam → STy → Except String BT) (cfuel : Nat)
    (tps : List EnvParam) (name : String) (src : Option String)
    (params : List (String × Option STy)) (args : List STy) : Except String BT :=
  let sliced := args.take params.length
  if sliced.isEmpty then .ok (mkRefBT name src none)
  else
    match mapExcept (getTy tps) sliced with
    | .error e => .error e
    | .ok resolved =>
      match elideLoop getTy cfuel tps params resolved params.length resolved none with
      | .error e => .error e
      | .ok finalArgs =>
        .ok (mkRefBT name src (if finalArgs.isEmpty then none else some finalArgs))

/-- `Context.getType` restricted to the `STy` fragment: the
`TypeFlags.TypeParameter` branch (lines 205-209: nearest in-scope parameter
by name, fatal `Unknown type parameter` otherwise) and the available-symbol
reference branch (line 236).  Fuel is structural-recursion bookkeeping; each
nesting level consumes one unit. -/
def getTypeF : Nat → List EnvParam → STy → Except String BT
  | 0, _, _ => .error "out of fuel"
  | _ + 1, tps, .tparam n =>
    match tps.find? (fun p => p.name == n) with
    | none => .error ("Unknown type parameter " ++ n)
    | some p => .ok (mkTParamBT n p.id)
  | fuel + 1, tps, .ref name src params args =>
    getReferenceTypeF (fun env t => getTypeF fuel env t) fuel tps name src params args
termination_by structural fuel tps t => fuel

/-! ### The default-elision scenario of the claim

Parameters `[A (no default), B (default X), C (default Y(B))]`; `X`, `X2`,
`A1` are distinct nullary nominal references, `Y` a unary nominal reference
whose own parameter has no default. -/

/-- The nominal type `X`. -/
def styX : STy := .ref "X" (some "./src") [] []

/-- The nominal type `X2` (distinct from `X`). -/
def styX2 : STy := .ref "X2" (some "./src") [] []

/-- The nominal type `A1`. -/
def styA1 : STy := .ref "A1" (some "./src") [] []

/-- `Y(t)` for the unary nominal `Y` (parameter `E`, no default). -/
def styY (t : STy) : STy := .ref "Y" (some "./src") [("E", none)] [t]

/-- Declared parameters `[A, B = X, C = Y(B)]`. -/
def fooParamsC2 : List (String × Option STy) :=
  [("A", none), ("B", some styX), ("C", some (styY (.tparam "B")))]

/-- Resolved `A1`. -/
def btA1 : BT := mkRefBT "A1" (some "./src") none

/-- Resolved `X2`. -/
def btX2 : BT := mkRefBT "X2" (some "./src") none

/-- Resolved `Y(X)`. -/
def btYX : BT := mkRefBT "Y" (some "./src") (some [mkRefBT "X" (some "./src") none])

/-- **C2, counterexample.**  The claim's own example asserts that for
parameters `[A (no default), B (default X), C (default Y(B))]` and arguments
`[A1, X, Y(X)]` the reference emits *zero* type arguments.  The code stops
the backward scan at `A`, the first parameter lacking a default, so the
argument `A1` is never compared or dropped: the emitted argument list is
`[A1]`, hence `typeArgs` is present, not absent. -/
theorem getdocs_c2_counterexample :
    getTypeF 32 [] (.ref "Foo" (some "./src") fooParamsC2 [styA1, styX, styY styX]) =
      .ok (mkRefBT "Foo" (some "./src") (some [btA1])) ∧
    (mkRefBT "Foo" (some "./src") (some [btA1])).typeArgs ≠ none := by
  refine ⟨rfl, ?_⟩
  simp [mkRefBT, BT.typeArgs]

/-- **C2, amended claim, proved.**  The deduplicator scans from the last
argument backward and stops at the first parameter lacking a default without
touching the remaining arguments: (i) whenever the *last* declared parameter
has no default, the argument list is returned unchanged; (ii) for parameters
`[A (no default), B (default X), C (default Y(B))]`, arguments `[A1, X, Y(X)]`
emit exactly `[A1]` (`C` matches `Y(B)` with `B` bound to the supplied `X`,
`B` matches its default, then the scan stops at `A`); and (iii) arguments
`[A1, X2, Y(X)]` emit all three arguments `[A1, X2, Y(X)]` (`C`'s default
`Y(B)` now evaluates to `Y(X2)` under the overridden `B`, which mismatches
`Y(X)`, stopping the scan at once). -/
theorem getdocs_c2_theorem :
    (∀ (getTy : List EnvParam → STy → Except String BT) (cfuel : Nat)
       (tps : List EnvParam) (params : List (String × Option STy))
       (fullArgs : List BT) (nm : String),
       params.getLast? = some (nm, none) →
       elideLoop getTy cfuel tps params fullArgs params.length fullArgs none =
         .ok fullArgs) ∧
    getTypeF 32 [] (.ref "Foo" (some "./src") fooParamsC2 [styA1, styX, styY styX]) =
      .ok (mkRefBT "Foo" (some "./src") (some [btA1])) ∧
    getTypeF 32 [] (.ref "Foo" (some "./src") fooParamsC2 [styA1, styX2, styY styX]) =
      .ok (mkRefBT "Foo" (some "./src") (some [btA1, btX2, btYX])) := by
  refine ⟨?_, rfl, rfl⟩
  intro getTy cfuel tps params fullArgs nm h
  have hne : params ≠ [] := by
    intro he
    rw [he] at h
    simp at h
  obtain ⟨k, hk⟩ : ∃ k, params.length = k + 1 :=
    ⟨params.length - 1, by have := List.length_pos.2 hne; omega⟩
  have hget : params.get? k = some (nm, none) := by
    have hk' : k = params.length - 1 := by omega
    rw [List.get?_eq_getElem?, hk', ← List.getLast?_eq_getElem?]
    exact h
  rw [hk, elideLoop, hget]
  rfl

/-- Witness for `getdocs_c2_theorem`: a single defaultless parameter leaves a
single supplied argument untouched. -/
theorem getdocs_c2_witness :
    elideLoop (fun _ _ => .error "unused") 5 [] [("A", none)] [btA1] 1 [btA1] none =
      .ok [btA1] :=
  getdocs_c2_theorem.1 (fun _ _ => .error "unused") 5 [] [("A", none)] [btA1] "A" rfl

/-! ## The symbol model

A view of a TypeScript `Symbol` carrying exactly what the embedded functions
inspect.  `flags` are the capability-flag tests of lines 111-125; `mdecl` is
`maybeDecl(symbol)` (lines 539-541) reduced to the (source file name,
position) pair that `compareSymbols` and `addSourceData` read; `description`
is the comment text `addSourceData` (lines 508-516) would attach from the
declarations — the comment pipeline itself is verified separately on
`getComments`/`stripComment`; `external` is the path-based
`isExternal` test (lines 531-536); `aliasTarget` is
`tc.getAliasedSymbol`; `pdecl` is the `ParameterDeclaration` view used by
`getParams` (lines 428-450).  `hasValueDecl`/`mod*` model
`symbol.valueDeclaration ? getCombinedModifierFlags(symbol.valueDeclaration) : 0`
(line 131). -/

/-- Capability flags (the `SymbolFlags` tests of lines 111-125 plus
`Optional`/accessors of lines 133-137). -/
structure SymFlags where
  fAlias : Bool
  fPropertyOrAccessor : Bool
  fMethod : Bool
  fEnum : Bool
  fEnumMember : Bool
  fClass : Bool
  fFunction : Bool
  fInterface : Bool
  fTypeAlias : Bool
  fVariable : Bool
  fTypeParameter : Bool
  fOptional : Bool
  fGetAccessor : Bool
  fSetAccessor : Bool

/-- The `ParameterDeclaration` facts `getParams` reads: question token,
initializer source text, rest token, identifier-shaped name, the
`Public | Readonly` modifier test of line 442, and the comment text
`addSourceData` would attach. -/
structure PDecl where
  questionToken : Bool
  initializer : Option String
  dotDotDot : Bool
  nameIsIdentifier : Bool
  modPublicOrReadonly : Bool
  description : Option String

/-- The symbol view (recursive through `aliasTarget`). -/
inductive MSymbol where
  | mk (name : String) (flags : SymFlags)
       (hasValueDecl modAbstract modReadonly modPrivate : Bool)
       (description : Option String)
       (external : Bool)
       (mdecl : Option (String × Int))
       (aliasTarget : Option MSymbol)
       (pdecl : Option PDecl)

/-- The symbol's `name`. -/
def MSymbol.name : MSymbol → String
  | .mk n _ _ _ _ _ _ _ _ _ _ => n

/-- The symbol's capability flags. -/
def MSymbol.flags : MSymbol → SymFlags
  | .mk _ f _ _ _ _ _ _ _ _ _ => f

/-- Whether `symbol.valueDeclaration` exists (line 131). -/
def MSymbol.hasValueDecl : MSymbol → Bool
  | .mk _ _ v _ _ _ _ _ _ _ _ => v

/-- `ModifierFlags.Abstract` on the value declaration. -/
def MSymbol.modAbstract : MSymbol → Bool
  | .mk _ _ _ a _ _ _ _ _ _ _ => a

/-- `ModifierFlags.Readonly` on the value declaration. -/
def MSymbol.modReadonly : MSymbol → Bool
  | .mk _ _ _ _ r _ _ _ _ _ _ => r

/-- `ModifierFlags.Private` on the value declaration. -/
def MSymbol.modPrivate : MSymbol → Bool
  | .mk _ _ _ _ _ p _ _ _ _ _ => p

/-- The normalized documentation text of the symbol's declarations. -/
def MSymbol.description : MSymbol → Option String
  | .mk _ _ _ _ _ _ d _ _ _ _ => d

/-- `isExternal(symbol)` (lines 531-536). -/
def MSymbol.external : MSymbol → Bool
  | .mk _ _ _ _ _ _ _ e _ _ _ => e

/-- `maybeDecl(symbol)` as its (file, position) key; `none` = no declaration. -/
def MSymbol.mdecl : MSymbol → Option (String × Int)
  | .mk _ _ _ _ _ _ _ _ d _ _ => d

/-- `tc.getAliasedSymbol(symbol)` when `flags.fAlias`. -/
def MSymbol.aliasTarget : MSymbol → Option MSymbol
  | .mk _ _ _ _ _ _ _ _ _ t _ => t

/-- `param.valueDeclaration as ParameterDeclaration`. -/
def MSymbol.pdecl : MSymbol → Option PDecl
  | .mk _ _ _ _ _ _ _ _ _ _ p => p

/-! ## Symbol ordering (`compareSymbols`, lines 553-559, and
`Context.gatherSymbols`, lines 88-100) -/

/-- Lines 553-559: order by declaring file name, then source position;
symbols without a declaration sort first (ties among themselves). -/
def compareSymbols (a b : MSymbol) : Int :=
  match a.mdecl, b.mdecl with
  | none, some _ => -1
  | none, none => 0
  | some _, none => 1
  | some (fa, pa), some (fb, pb) =>
    if fa == fb then pa - pb else if fa < fb then -1 else 1

/-- The comparator as a merge relation: `compareSymbols a b <= 0`. -/
def symLe (a b : MSymbol) : Bool := compareSymbols a b ≤ 0

/-- `symbols.slice().sort(compareSymbols)` (line 91): a sorted permutation of
the input under the comparator (which ECMAScript guarantees for a consistent
comparator; the model uses merge sort). -/
def sortSymbols (l : List MSymbol) : List MSymbol := l.mergeSort symLe

/-- `Context.symbolName` (lines 102-106): `__@`-mangled symbol names are
rendered in bracket form. -/
def symbolNameM (s : MSymbol) : String :=
  match s.name.toList with
  | '_' :: '_' :: '@' :: rest =>
    let n := String.mk (rest.takeWhile (fun c => c != '@'))
    if n == "sym" then "[unique symbol]" else "[symbol " ++ n ++ "]"
  | _ => s.name

/-- `Context.extend` (lines 79-82): hierarchical id extension. -/
def extendId (idStr sepStr nm : String) : String :=
  if idStr == "" then nm else idStr ++ sepStr ++ nm

/-! ## Classification and filtering (`Context.itemForSymbol`, lines 108-151)

The resolution callees that `itemForSymbol` dispatches to are collected in a
`Resolver`, abstracting the checker-provided type values (`Ty`), the produced
type description (`Desc`) and type-parameter entries (`PP`); the argument
shapes mirror the call sites: `getType params type (some symbol)` is
`cx.getType(type, symbol)` with `cx = this.addParams(params)` when params are
present (lines 142-147). -/

/-- The abstracted resolution interface consumed by `itemForSymbol` and
`getParams`. -/
structure Resolver (Ty Desc PP : Type) where
  symbolType : MSymbol → Ty
  getNonNullable : Ty → Ty
  getType : Option (List PP) → Ty → MSymbol → Desc
  getEnumType : Option (List PP) → MSymbol → Desc
  getReferenceType : MSymbol → Desc
  getTypeParams : MSymbol → Option (List PP)

/-- The produced `Item` (`Binding & BindingType`, line 67), with the binding
fields `itemForSymbol` writes; absent boolean flags are `false`. -/
structure MItem (Desc PP : Type) where
  kind : String
  id : String
  description : Option String
  abstract : Bool
  readonly : Bool
  optional : Bool
  typeDesc : Desc
  typeParams : Option (List PP)

/-- `ItemsWithParams` (line 19). -/
def ItemsWithParams : List String := ["class", "enum", "interface", "typealias"]

/-- A `\b`-style word character (`[A-Za-z0-9_]`). -/
def isWordChar (c : Char) : Bool := c.isAlpha || c.isDigit || c == '_'

/-- Whether the list starts with `@internal` followed by a word boundary. -/
def internalAt : List Char → Bool
  | '@' :: 'i' :: 'n' :: 't' :: 'e' :: 'r' :: 'n' :: 'a' :: 'l' :: rest =>
    match rest with
    | [] => true
    | c :: _ => !isWordChar c
  | _ => false

/-- Scan for the marker anywhere in the list. -/
def hasInternalAux : List Char → Bool
  | [] => false
  | c :: rest => internalAt (c :: rest) || hasInternalAux rest

/-- The `/@internal\b/` test of line 136. -/
def hasInternalMarker (s : String) : Bool := hasInternalAux s.toList

/-- `binding.description && /@internal\b/.test(binding.description)`. -/
def descInternal (sym : MSymbol) : Bool :=
  match sym.description with
  | some d => hasInternalMarker d
  | none => false

/-- The post-classification body of `itemForSymbol` (lines 128-150): build the
binding, apply modifier flags, return `null` for private/internal symbols,
strip nullability for optional symbols, resolve type parameters (`decl(symbol)`
throws when no declaration exists, lines 543-547) and the kind-directed type
description.  (`addSourceData` also records a `loc`; the claims below do not
touch it, so only the description is modelled.) -/
def itemBody {Ty Desc PP : Type} (R : Resolver Ty Desc PP) (cxId : String)
    (sym : MSymbol) (kind : String) : Except String (Option (MItem Desc PP)) :=
  let type0 := R.symbolType sym
  let abstractB := sym.hasValueDecl && sym.modAbstract
  let readonlyB := (sym.hasValueDecl && sym.modReadonly) ||
    (sym.flags.fGetAccessor && !sym.flags.fSetAccessor)
  if (sym.hasValueDecl && sym.modPrivate) || descInternal sym then .ok none
  else
    let optionalB := sym.flags.fOptional
    let type1 := if sym.flags.fOptional then R.getNonNullable type0 else type0
    let paramsStep : Except String (Option (List PP)) :=
      if ItemsWithParams.contains kind then
        match sym.mdecl with
        | none => .error ("No declaration available for symbol " ++ sym.name)
        | some _ => .ok (R.getTypeParams sym)
      else .ok none
    match paramsStep with
    | .error e => .error e
    | .ok params =>
      let typeDescStep : Except String Desc :=
        if kind == "enum" then .ok (R.getEnumType params sym)
        else if kind == "reexport" then
          match sym.aliasTarget with
          | none => .error "alias without target"
          | some aliased => .ok (R.getReferenceType aliased)
        else .ok (R.getType params type1 sym)
      match typeDescStep with
      | .error e => .error e
      | .ok td =>
        .ok (some ⟨kind, cxId, sym.description, abstractB, readonlyB, optionalB, td, params⟩)

/-- `Context.itemForSymbol` (lines 108-151): alias indirection first (external
target ⇒ re-export, otherwise transparent recursion on the target), then the
priority-ordered capability-flag classification of lines 116-125, fatal
classification error when nothing matches, then `itemBody`. -/
def itemForSymbol {Ty Desc PP : Type} (R : Resolver Ty Desc PP) (cxId : String)
    (sym : MSymbol) (kindArg : Option String) : Except String (Option (MItem Desc PP)) :=
  match kindArg with
  | some k => itemBody R cxId sym k
  | none =>
    match sym with
    | .mk n fl hv ma mr mp d e md tgt pd =>
      let s := MSymbol.mk n fl hv ma mr mp d e md tgt pd
      if fl.fAlias then
        match tgt with
        | none => .error "alias without target"
        | some aliased =>
          if aliased.external then itemBody R cxId s "reexport"
          else itemForSymbol R cxId aliased none
      else if fl.fPropertyOrAccessor then itemBody R cxId s "property"
      else if fl.fMethod then itemBody R cxId s "method"
      else if fl.fEnum then itemBody R cxId s "enum"
      else if fl.fEnumMember then itemBody R cxId s "enummember"
      else if fl.fClass then itemBody R cxId s "class"
      else if fl.fFunction then itemBody R cxId s "function"
      else if fl.fInterface then itemBody R cxId s "interface"
      else if fl.fTypeAlias then itemBody R cxId s "typealias"
      else if fl.fVariable then itemBody R cxId s "variable"
      else if fl.fTypeParameter then itemBody R cxId s "typeparam"
      else .error ("Can not determine a kind for symbol " ++ n)

/-- `!filter || filter(name, item)` (line 94): an absent filter accepts all. -/
def keepCheck {Desc PP : Type} (filterF : Option (String → MItem Desc PP → Bool))
    (nm : String) (it : MItem Desc PP) : Bool :=
  match filterF with
  | some f => f nm it
  | none => true

/-- The iteration of `gatherSymbols` (lines 91-98) over an already sorted
symbol list: compute the display name, classify/resolve, skip `null` items,
apply the optional filter, insert in iteration order.  (The source inserts
into a JavaScript object, where a repeated name overwrites in place; the
association list model appends — the theorems below use distinct names.) -/
def gatherGo {Ty Desc PP : Type} (R : Resolver Ty Desc PP) (cxId sepStr : String)
    (filterF : Option (String → MItem Desc PP → Bool)) :
    List MSymbol → Except String (List (String × MItem Desc PP))
  | [] => .ok []
  | sym :: rest =>
    let nm := symbolNameM sym
    match itemForSymbol R (extendId cxId sepStr nm) sym none with
    | .error e => .error e
    | .ok none => gatherGo R cxId sepStr filterF rest
    | .ok (some item) =>
      if keepCheck filterF nm item then
        match gatherGo R cxId sepStr filterF rest with
        | .error e => .error e
        | .ok out => .ok ((nm, item) :: out)
      else gatherGo R cxId sepStr filterF rest

/-- `Context.gatherSymbols` (lines 88-100): sort by `compareSymbols`, then
iterate.  (The `gathered ? target : null` emptiness signalling of line 99 is
left to callers as a `List.isEmpty` test.) -/
def gatherSymbols {Ty Desc PP : Type} (R : Resolver Ty Desc PP) (cxId sepStr : String)
    (filterF : Option (String → MItem Desc PP → Bool)) (symbols : List MSymbol) :
    Except String (List (String × MItem Desc PP)) :=
  gatherGo R cxId sepStr filterF (sortSymbols symbols)

/-! ### Ordering facts for the comparator -/

/-- Lexicographic (file, position) non-strict order. -/
def keyLe (x y : String × Int) : Prop := x.1 < y.1 ∨ (x.1 = y.1 ∧ x.2 ≤ y.2)

/-- The comparator's order interpretation: declaration-less symbols first
(tied among themselves), then lexicographic (file, position). -/
def optKeyLe : Option (String × Int) → Option (String × Int) → Prop
  | none, _ => True
  | some _, none => False
  | some x, some y => keyLe x y

/-- Strict (file, position) order on declared symbols; the ascending-order
relation of the claim. -/
def symKeyLt (a b : MSymbol) : Prop :=
  match a.mdecl, b.mdecl with
  | some x, some y => x.1 < y.1 ∨ (x.1 = y.1 ∧ x.2 < y.2)
  | _, _ => False

theorem symLe_iff (a b : MSymbol) : symLe a b = true ↔ optKeyLe a.mdecl b.mdecl := by
  rcases ha : a.mdecl with _ | ⟨fa, pa⟩ <;> rcases hb : b.mdecl with _ | ⟨fb, pb⟩
  · simp [symLe, compareSymbols, ha, hb, optKeyLe]
  · simp [symLe, compareSymbols, ha, hb, optKeyLe]
  · simp [symLe, compareSymbols, ha, hb, optKeyLe]
  · by_cases he : fa = fb
    · subst he
      simp [symLe, compareSymbols, ha, hb, optKeyLe, keyLe, sub_nonpos, lt_irrefl]
    · have hne : (fa == fb) = false := by simp [he]
      by_cases hlt : fa < fb
      · simp [symLe, compareSymbols, ha, hb, optKeyLe, keyLe, hne, hlt]
      · simp [symLe, compareSymbols, ha, hb, optKeyLe, keyLe, hne, hlt, he]

theorem symLe_total (a b : MSymbol) : (symLe a b || symLe b a) = true := by
  rw [Bool.or_eq_true, symLe_iff, symLe_iff]
  rcases a.mdecl with _ | x <;> rcases b.mdecl with _ | y
  · left; trivial
  · left; trivial
  · right; trivial
  · show keyLe x y ∨ keyLe y x
    rcases lt_trichotomy x.1 y.1 with h | h | h
    · exact Or.inl (Or.inl h)
    · rcases Int.le_total x.2 y.2 with hp | hp
      · exact Or.inl (Or.inr ⟨h, hp⟩)
      · exact Or.inr (Or.inr ⟨h.symm, hp⟩)
    · exact Or.inr (Or.inl h)

theorem symLe_trans (a b c : MSymbol) (h1 : symLe a b = true) (h2 : symLe b c = true) :
    symLe a c = true := by
  rw [symLe_iff] at h1 h2 ⊢
  rcases ha : a.mdecl with _ | x
  · trivial
  · rcases hb : b.mdecl with _ | y
    · rw [ha, hb] at h1
      exact absurd h1 (by simp [optKeyLe])
    · rcases hc : c.mdecl with _ | z
      · rw [hb, hc] at h2
        exact absurd h2 (by simp [optKeyLe])
      · rw [ha, hb] at h1
        rw [hb, hc] at h2
        simp only [optKeyLe, keyLe] at h1 h2 ⊢
        rcases h1 with h1 | ⟨h1e, h1p⟩ <;> rcases h2 with h2 | ⟨h2e, h2p⟩
        · exact Or.inl (lt_trans h1 h2)
        · exact Or.inl (h2e ▸ h1)
        · exact Or.inl (h1e ▸ h2)
        · exact Or.inr ⟨h1e.trans h2e, le_trans h1p h2p⟩

/-- `symKeyLt` is vacuously antisymmetric: two symbols strictly below each
other cannot exist. -/
theorem symKeyLt_antisymm (a b : MSymbol) (h1 : symKeyLt a b) (h2 : symKeyLt b a) : a = b := by
  exfalso
  unfold symKeyLt at h1 h2
  rcases ha : a.mdecl with _ | x
  · rw [ha] at h1
    exact h1
  · rcases hb : b.mdecl with _ | y
    · rw [ha, hb] at h1
      exact h1
    · rw [ha, hb] at h1 h2
      simp only at h1 h2
      rcases h1 with h1 | ⟨h1e, h1p⟩ <;> rcases h2 with h2 | ⟨h2e, h2p⟩
      · exact absurd h2 (lt_asymm h1)
      · exact absurd h2e (ne_of_gt h1)
      · exact absurd h2 (by rw [h1e]; exact lt_irrefl _)
      · exact absurd h2p (not_lt_of_gt h1p)

/-- From sortedness under the comparator plus pairwise-distinct declaration
keys (all present), the order is strict. -/
theorem pairwise_strict_of_sorted (s : List MSymbol)
    (hs : s.Pairwise (fun a b => symLe a b = true))
    (hne : s.Pairwise (fun a b => a.mdecl ≠ b.mdecl))
    (hd : ∀ x ∈ s, x.mdecl.isSome = true) :
    s.Pairwise symKeyLt := by
  refine (hs.and hne).imp_of_mem ?_
  intro a b hma hmb hab
  obtain ⟨hle, hnd⟩ := hab
  obtain ⟨x, hxa⟩ := Option.isSome_iff_exists.1 (hd a hma)
  obtain ⟨y, hyb⟩ := Option.isSome_iff_exists.1 (hd b hmb)
  rw [symLe_iff, hxa, hyb] at hle
  simp only [optKeyLe, keyLe] at hle
  unfold symKeyLt
  rw [hxa, hyb]
  simp only
  rcases hle with h | ⟨he, hp⟩
  · exact Or.inl h
  · refine Or.inr ⟨he, lt_of_le_of_ne hp ?_⟩
    intro hpe
    apply hnd
    rw [hxa, hyb]
    have : x = y := Prod.ext he hpe
    rw [this]

/-- **C5, proved.**  `gatherSymbols` first sorts the exported symbols with
`compareSymbols` (line 91); for symbol lists with declarations present and
pairwise-distinct (file, position) keys, any two permutations of the same
symbols sort identically, the sorted order is strictly ascending by
(declaring file, source position), and the entire gathered output — names,
items, and their insertion order — is identical for the two permutations, for
every resolver: the model's internal iteration order cannot influence the
result.  (Determinism proper is inherent in the embedding: every embedded
function is a mathematical function of its inputs.) -/
theorem getdocs_c5_theorem (l1 l2 : List MSymbol)
    (hperm : l1.Perm l2)
    (hdecl : ∀ s ∈ l1, s.mdecl.isSome = true)
    (hdist : l1.Pairwise (fun a b => a.mdecl ≠ b.mdecl)) :
    sortSymbols l1 = sortSymbols l2 ∧
    (sortSymbols l1).Pairwise symKeyLt ∧
    (∀ (Ty Desc PP : Type) (R : Resolver Ty Desc PP) (cxId sepStr : String)
       (filterF : Option (String → MItem Desc PP → Bool)),
       gatherSymbols R cxId sepStr filterF l1 = gatherSymbols R cxId sepStr filterF l2) := by
  have hsymm : ∀ {x y : MSymbol}, x.mdecl ≠ y.mdecl → y.mdecl ≠ x.mdecl := fun h => h.symm
  have hperm1 : (sortSymbols l1).Perm l1 := List.mergeSort_perm l1 symLe
  have hperm2 : (sortSymbols l2).Perm l2 := List.mergeSort_perm l2 symLe
  have hs1 : (sortSymbols l1).Pairwise (fun a b => symLe a b = true) :=
    List.sorted_mergeSort symLe_trans symLe_total l1
  have hs2 : (sortSymbols l2).Pairwise (fun a b => symLe a b = true) :=
    List.sorted_mergeSort symLe_trans symLe_total l2
  have hd1 : ∀ x ∈ sortSymbols l1, x.mdecl.isSome = true :=
    fun x hx => hdecl x (hperm1.mem_iff.1 hx)
  have hd2 : ∀ x ∈ sortSymbols l2, x.mdecl.isSome = true :=
    fun x hx => hdecl x (hperm.mem_iff.2 (hperm2.mem_iff.1 hx))
  have hne1 : (sortSymbols l1).Pairwise (fun a b => a.mdecl ≠ b.mdecl) :=
    (hperm1.pairwise_iff hsymm).2 hdist
  have hne2 : (sortSymbols l2).Pairwise (fun a b => a.mdecl ≠ b.mdecl) :=
    (hperm2.pairwise_iff hsymm).2 ((hperm.pairwise_iff hsymm).1 hdist)
  have hstrict1 := pairwise_strict_of_sorted _ hs1 hne1 hd1
  have hstrict2 := pairwise_strict_of_sorted _ hs2 hne2 hd2
  haveI : IsAntisymm MSymbol symKeyLt := ⟨symKeyLt_antisymm⟩
  have hperm12 : (sortSymbols l1).Perm (sortSymbols l2) :=
    (hperm1.trans hperm).trans hperm2.symm
  have heq : sortSymbols l1 = sortSymbols l2 :=
    List.eq_of_perm_of_sorted hperm12 hstrict1 hstrict2
  refine ⟨heq, hstrict1, ?_⟩
  intro Ty Desc PP R cxId sepStr filterF
  unfold gatherSymbols
  rw [heq]

/-- A flagless symbol with a declaration key, for concrete instances. -/
def symW (nm f : String) (p : Int) : MSymbol :=
  .mk nm
    ⟨false, false, false, false, false, false, false, false, false, false, false,
      false, false, false⟩
    false false false false none false (some (f, p)) none none

/-- Witness for `getdocs_c5_theorem`: two declared symbols in either
presentation order sort identically. -/
theorem getdocs_c5_witness :
    sortSymbols [symW "x" "a.ts" 10, symW "y" "b.ts" 5] =
      sortSymbols [symW "y" "b.ts" 5, symW "x" "a.ts" 10] :=
  (getdocs_c5_theorem [symW "x" "a.ts" 10, symW "y" "b.ts" 5]
    [symW "y" "b.ts" 5, symW "x" "a.ts" 10]
    (List.Perm.swap (symW "y" "b.ts" 5) (symW "x" "a.ts" 10) [])
    (by decide) (by decide)).1

/-- Every entry of a successful `gatherGo` run originates from a symbol of the
input list whose classification produced exactly that item. -/
theorem gatherGo_mem {Ty Desc PP : Type} (R : Resolver Ty Desc PP) (cxId sepStr : String)
    (filterF : Option (String → MItem Desc PP → Bool)) :
    ∀ (l : List MSymbol) (out : List (String × MItem Desc PP)),
      gatherGo R cxId sepStr filterF l = .ok out →
      ∀ nm it, (nm, it) ∈ out →
        ∃ s ∈ l, symbolNameM s = nm ∧
          itemForSymbol R (extendId cxId sepStr nm) s none = .ok (some it) := by
  intro l
  induction l with
  | nil =>
    intro out hout nm it hmem
    simp only [gatherGo] at hout
    cases hout
    simp at hmem
  | cons sym rest ih =>
    intro out hout nm it hmem
    simp only [gatherGo] at hout
    cases hitem : itemForSymbol R (extendId cxId sepStr (symbolNameM sym)) sym none with
    | error e =>
      rw [hitem] at hout
      cases hout
    | ok oitem =>
      rw [hitem] at hout
      cases oitem with
      | none =>
        dsimp only at hout
        obtain ⟨s, hs, hnm, hok⟩ := ih out hout nm it hmem
        exact ⟨s, List.mem_cons_of_mem _ hs, hnm, hok⟩
      | some item =>
        dsimp only at hout
        by_cases hkeep : keepCheck filterF (symbolNameM sym) item = true
        · rw [if_pos hkeep] at hout
          cases hrest : gatherGo R cxId sepStr filterF rest with
          | error e =>
            rw [hrest] at hout
            cases hout
          | ok out' =>
            rw [hrest] at hout
            cases hout
            rcases List.mem_cons.1 hmem with h | h
            · have h1 : symbolNameM sym = nm := (Prod.ext_iff.1 h.symm).1
              have h2 : item = it := (Prod.ext_iff.1 h.symm).2
              refine ⟨sym, List.mem_cons_self _ _, h1, ?_⟩
              rw [← h1, ← h2]
              exact hitem
            · obtain ⟨s, hs, hnm, hok⟩ := ih out' hrest nm it h
              exact ⟨s, List.mem_cons_of_mem _ hs, hnm, hok⟩
        · rw [if_neg hkeep] at hout
          obtain ⟨s, hs, hnm, hok⟩ := ih out hout nm it hmem
          exact ⟨s, List.mem_cons_of_mem _ hs, hnm, hok⟩

/-- Conversely, with no filter installed, a symbol whose classification
produces an item contributes its entry to every successful `gatherGo` run. -/
theorem gatherGo_complete {Ty Desc PP : Type} (R : Resolver Ty Desc PP) (cxId sepStr : String) :
    ∀ (l : List MSymbol) (out : List (String × MItem Desc PP)) (s : MSymbol)
      (it : MItem Desc PP),
      gatherGo R cxId sepStr none l = .ok out →
      s ∈ l →
      itemForSymbol R (extendId cxId sepStr (symbolNameM s)) s none = .ok (some it) →
      (symbolNameM s, it) ∈ out := by
  intro l
  induction l with
  | nil =>
    intro out s it hout hs
    simp at hs
  | cons sym rest ih =>
    intro out s it hout hs hok
    simp only [gatherGo] at hout
    rcases List.mem_cons.1 hs with rfl | hs'
    · rw [hok] at hout
      dsimp only at hout
      rw [if_pos (show keepCheck (none : Option (String → MItem Desc PP → Bool))
        (symbolNameM s) it = true from rfl)] at hout
      cases hrest : gatherGo R cxId sepStr none rest with
      | error e =>
        rw [hrest] at hout
        cases hout
      | ok out' =>
        rw [hrest] at hout
        cases hout
        exact List.mem_cons_self _ _
    · cases hitem : itemForSymbol R (extendId cxId sepStr (symbolNameM sym)) sym none with
      | error e =>
        rw [hitem] at hout
        cases hout
      | ok oitem =>
        rw [hitem] at hout
        cases oitem with
        | none =>
          dsimp only at hout
          exact ih out s it hout hs' hok
        | some item =>
          dsimp only at hout
          rw [if_pos (show keepCheck (none : Option (String → MItem Desc PP → Bool))
            (symbolNameM sym) item = true from rfl)] at hout
          cases hrest : gatherGo R cxId sepStr none rest with
          | error e =>
            rw [hrest] at hout
            cases hout
          | ok out' =>
            rw [hrest] at hout
            cases hout
            exact List.mem_cons_of_mem _ (ih out' s it hrest hs' hok)

/-- Line 136: a private modifier or an `@internal` marker in the description
makes the classification body return `null` — not an error. -/
theorem itemBody_excluded {Ty Desc PP : Type} (R : Resolver Ty Desc PP) (cxId : String)
    (sym : MSymbol) (k : String)
    (h : ((sym.hasValueDecl && sym.modPrivate) || descInternal sym) = true) :
    itemBody R cxId sym k = .ok none := by
  unfold itemBody
  rw [if_pos h]

set_option maxHeartbeats 1600000 in
/-- Through the flag classification (no alias indirection), a private or
internal-marked symbol never produces an item: the result is `null` or a
classification error, never a value. -/
theorem itemForSymbol_excluded_not_some {Ty Desc PP : Type} (R : Resolver Ty Desc PP)
    (cxId : String) (sym : MSymbol)
    (halias : sym.flags.fAlias = false)
    (h : ((sym.hasValueDecl && sym.modPrivate) || descInternal sym) = true) :
    ∀ it : MItem Desc PP, itemForSymbol R cxId sym none ≠ .ok (some it) := by
  intro it
  rcases sym with ⟨n, fl, hv, ma, mr, mp, d, e, md, tgt, pd⟩
  have halias' : fl.fAlias = false := halias
  rcases tgt with _ | aliased <;>
    (first
      | rw [itemForSymbol.eq_2]
      | rw [itemForSymbol.eq_3]) <;>
    rw [if_neg (by simp [halias'])] <;>
    split_ifs <;>
    intro hc <;>
    first
      | (rw [itemBody_excluded R cxId _ _ h] at hc; simp at hc)
      | cases hc

/-- **C7, proved.**  (i) With the kind already determined, a symbol with a
private modifier on its value declaration, or whose description contains the
`@internal` marker, yields `null` — silent exclusion, not an error.  (ii) At
the `gatherSymbols` level: if every symbol rendering to a name `n` is a
non-alias symbol that is private/internal-marked, no entry for `n` appears in
the output map of a successful gather.  (iii) An undecorated sibling whose
classification yields an item always appears in that output map (no filter
installed). -/
theorem getdocs_c7_theorem :
    (∀ (Ty Desc PP : Type) (R : Resolver Ty Desc PP) (cxId : String) (sym : MSymbol)
       (k : String),
       ((sym.hasValueDecl && sym.modPrivate) || descInternal sym) = true →
       itemForSymbol R cxId sym (some k) = .ok none) ∧
    (∀ (Ty Desc PP : Type) (R : Resolver Ty Desc PP) (cxId sepStr : String)
       (filterF : Option (String → MItem Desc PP → Bool)) (syms : List MSymbol)
       (n : String) (out : List (String × MItem Desc PP)),
       gatherSymbols R cxId sepStr filterF syms = .ok out →
       (∀ s ∈ syms, symbolNameM s = n →
          s.flags.fAlias = false ∧
          ((s.hasValueDecl && s.modPrivate) || descInternal s) = true) →
       ∀ it, (n, it) ∉ out) ∧
    (∀ (Ty Desc PP : Type) (R : Resolver Ty Desc PP) (cxId sepStr : String)
       (syms : List MSymbol) (s : MSymbol) (it : MItem Desc PP)
       (out : List (String × MItem Desc PP)),
       gatherSymbols R cxId sepStr none syms = .ok out →
       s ∈ syms →
       itemForSymbol R (extendId cxId sepStr (symbolNameM s)) s none = .ok (some it) →
       (symbolNameM s, it) ∈ out) := by
  refine ⟨?_, ?_, ?_⟩
  · intro Ty Desc PP R cxId sym k h
    rw [itemForSymbol.eq_1]
    exact itemBody_excluded R cxId sym k h
  · intro Ty Desc PP R cxId sepStr filterF syms n out hout hall it hmem
    obtain ⟨s, hs, hnm, hok⟩ := gatherGo_mem R cxId sepStr filterF _ out hout n it hmem
    have hsyms : s ∈ syms := (List.mergeSort_perm syms symLe).subset hs
    obtain ⟨halias, hcond⟩ := hall s hsyms hnm
    exact itemForSymbol_excluded_not_some R _ s halias hcond it hok
  · intro Ty Desc PP R cxId sepStr syms s it out hout hs hok
    exact gatherGo_complete R cxId sepStr _ out s it hout
      ((List.mergeSort_perm syms symLe).mem_iff.2 hs) hok

/-- The trivial resolver over unit carriers, for concrete instances. -/
def trivResolver : Resolver Unit Unit Unit :=
  ⟨fun _ => (), fun _ => (), fun _ _ _ => (), fun _ _ => (), fun _ => (), fun _ => none⟩

/-- A private property-flagged member symbol. -/
def symPrivate : MSymbol :=
  .mk "secret"
    ⟨false, true, false, false, false, false, false, false, false, false, false,
      false, false, false⟩
    true false false true none false (some ("f.ts", 3)) none none

/-- Witness for `getdocs_c7_theorem`: the private member yields no item. -/
theorem getdocs_c7_witness :
    itemForSymbol trivResolver "Cls^secret" symPrivate (some "property") = .ok none :=
  getdocs_c7_theorem.1 Unit Unit Unit trivResolver "Cls^secret" symPrivate "property"
    (by decide)

/-! ## Parameter items (`Context.getParams`, lines 428-450) -/

/-- The produced `Param` (line 56-65) with the fields `getParams` writes. -/
structure MPar (Desc : Type) where
  id : String
  kind : String
  typeDesc : Desc
  description : Option String
  default : Option String
  optional : Bool
  rest : Bool
  name : Option String

/-- The per-parameter body of `getParams` (lines 429-449): extend the context
with the raw symbol name, strip nullability when a question token is present,
resolve the type, attach source data unless the parameter is a
visibility-modified constructor property (line 442), record the default
initializer text, optionality, rest flag, and the display name for
identifier-shaped declarations.  (When `param.valueDeclaration` is absent the
source would throw at line 447; parameters always carry one, and the model
renders the name absent on that unreachable path.) -/
def getParamOne {Ty Desc PP : Type} (R : Resolver Ty Desc PP) (cxId : String)
    (param : MSymbol) : MPar Desc :=
  let cxId' := extendId cxId "^" param.name
  let type0 := R.symbolType param
  let optional0 := match param.pdecl with
    | some pd => pd.questionToken
    | none => false
  let type1 := match param.pdecl with
    | some pd => if pd.questionToken then R.getNonNullable type0 else type0
    | none => type0
  let typeDesc := R.getType none type1 param
  let descr := match param.pdecl with
    | some pd => if !pd.modPublicOrReadonly then pd.description else none
    | none => none
  let dflt := param.pdecl.bind PDecl.initializer
  let optional1 := dflt.isSome || optional0
  let restTok := (param.pdecl.map PDecl.dotDotDot).getD false
  let nameF :=
    if (param.pdecl.map PDecl.nameIsIdentifier).getD false then some param.name else none
  ⟨cxId', "parameter", typeDesc, descr, dflt, optional1, restTok, nameF⟩

/-- `Context.getParams` (line 429): map the body over the signature's
parameter symbols. -/
def getParams {Ty Desc PP : Type} (R : Resolver Ty Desc PP) (cxId : String)
    (params : List MSymbol) : List (MPar Desc) :=
  params.map (getParamOne R cxId)

/-- **C10, proved.**  (i) A symbol carrying the optional flag (not
private/internal-excluded, of a kind that resolves through `getType`, i.e.
not an enum/re-export and without type parameters) produces an item with
`optional = true` whose type description is computed from the non-nullable
version of the symbol's type — `getType` receives
`getNonNullable (symbolType sym)`, not the raw type.  (ii) A parameter
declared with a question token produces a `Param` with `optional = true`
whose type description is likewise computed from the non-nullable type. -/
theorem getdocs_c10_theorem :
    (∀ (Ty Desc PP : Type) (R : Resolver Ty Desc PP) (cxId : String) (sym : MSymbol)
       (k : String),
       sym.flags.fOptional = true →
       ((sym.hasValueDecl && sym.modPrivate) || descInternal sym) = false →
       ItemsWithParams.contains k = false →
       (k == "enum") = false →
       (k == "reexport") = false →
       itemForSymbol R cxId sym (some k) =
         .ok (some ⟨k, cxId, sym.description,
           sym.hasValueDecl && sym.modAbstract,
           (sym.hasValueDecl && sym.modReadonly) ||
             (sym.flags.fGetAccessor && !sym.flags.fSetAccessor),
           true,
           R.getType none (R.getNonNullable (R.symbolType sym)) sym,
           none⟩)) ∧
    (∀ (Ty Desc PP : Type) (R : Resolver Ty Desc PP) (cxId : String) (param : MSymbol)
       (pd : PDecl),
       param.pdecl = some pd →
       pd.questionToken = true →
       (getParamOne R cxId param).optional = true ∧
       (getParamOne R cxId param).typeDesc =
         R.getType none (R.getNonNullable (R.symbolType param)) param) := by
  constructor
  · intro Ty Desc PP R cxId sym k hopt hclean hitems hk1 hk2
    rw [itemForSymbol.eq_1]
    unfold itemBody
    rw [if_neg (by simp [hclean])]
    simp only [hopt, hitems, hk1, hk2, if_true, Bool.false_eq_true, if_false]
  · intro Ty Desc PP R cxId param pd hpd hq
    unfold getParamOne
    simp only [hpd, hq, if_true]
    constructor
    · simp
    · trivial

/-- An optional property-flagged member symbol. -/
def symOptional : MSymbol :=
  .mk "maybe"
    ⟨false, true, false, false, false, false, false, false, false, false, false,
      true, false, false⟩
    false false false false none false (some ("f.ts", 9)) none none

/-- Witness for `getdocs_c10_theorem`: the optional member's item is optional
and resolved through the non-nullable type. -/
theorem getdocs_c10_witness :
    itemForSymbol trivResolver "M^maybe" symOptional (some "property") =
      .ok (some ⟨"property", "M^maybe", none, false, false, true, (), none⟩) :=
  getdocs_c10_theorem.1 Unit Unit Unit trivResolver "M^maybe" symOptional "property"
    (by decide) (by decide) (by decide) (by decide) (by decide)

/-! ## Constructor selection (`Context.getClassType`, lines 361-376)

The per-overload data the loop reads: the construct signature found for the
declaration (line 363; `none` when `find` fails), the `Private` modifier test
(line 364), and the description `addSourceData` attaches (line 366).
`MSignature` abstracts the resolved content of a signature as consumed by
`getCallSignature` (lines 481-495): resolved type parameters, resolved
parameters, and the resolved non-`void` return type, leaving only the
`suppressReturn` plumbing concrete. -/

/-- Abstracted resolved signature content. -/
structure MSignature (Desc : Type) where
  typeParams : Option (List Desc)
  params : List Desc
  returnsNonVoid : Option Desc

/-- The emitted `CallSignature` record (lines 49-54). -/
structure CSig (Desc : Type) where
  type : String
  params : List Desc
  returns : Option Desc
  typeParams : Option (List Desc)

/-- `getCallSignature(signature, type, suppressReturn)` (lines 481-495) with
the parameter/type-parameter resolution abstracted into `sig`: the `returns`
field is emitted only when not suppressed and the return type is not `void`
(lines 490-493). -/
def getCallSignatureC {Desc : Type} (sig : MSignature Desc) (sigType : String)
    (suppressReturn : Bool) : CSig Desc :=
  ⟨sigType, sig.params, if suppressReturn then none else sig.returnsNonVoid,
    sig.typeParams⟩

/-- One constructor overload as the loop sees it. -/
structure CtorDecl (Desc : Type) where
  hasSignature : Option (MSignature Desc)
  modPrivate : Bool
  description : Option String

/-- The `construct` item (line 365). -/
structure CtorItem (Desc : Type) where
  kind : String
  id : String
  type : String
  description : Option String
  signatures : List (CSig Desc)

/-- `/@internal\b/` on the overload's description (line 367). -/
def ctorDescInternal {Desc : Type} (c : CtorDecl Desc) : Bool :=
  match c.description with
  | some d => hasInternalMarker d
  | none => false

/-- Lines 361-371: skip overloads without a found signature or with a private
modifier (line 364) or an `@internal` description (line 367); at the first
remaining overload, build the item, push the one suppressed-return signature,
and `break` — the loop never reaches later overloads. -/
def ctorScan {Desc : Type} (cxId : String) : List (CtorDecl Desc) → Option (CtorItem Desc)
  | [] => none
  | c :: rest =>
    match c.hasSignature with
    | none => ctorScan cxId rest
    | some sig =>
      if c.modPrivate then ctorScan cxId rest
      else if ctorDescInternal c then ctorScan cxId rest
      else some ⟨"constructor", cxId ++ ".constructor", "Function", c.description,
        [getCallSignatureC sig "constructor" true]⟩

/-- An overload is skipped when it has no found signature, a private modifier,
or an internal-marked description. -/
def skippedCtor {Desc : Type} (c : CtorDecl Desc) : Bool :=
  c.hasSignature.isNone || c.modPrivate || ctorDescInternal c

/-- **C6, counterexample.**  Two public, undocumented constructor overloads:
the claim says the second becomes an additional signature on the first's
entry, i.e. two signatures; the `break` at line 370 stops after the first, so
exactly one signature is emitted. -/
theorem getdocs_c6_counterexample :
    (ctorScan "C" [(⟨some ⟨none, ["a"], some "R1"⟩, false, none⟩ : CtorDecl String),
        ⟨some ⟨none, ["a", "b"], some "R2"⟩, false, none⟩]).map
      (fun it => it.signatures.length) = some 1 ∧ (1 : Nat) ≠ 2 := by
  exact ⟨rfl, by decide⟩

/-- **C6, amended claim, proved.**  The assembler skips constructor overloads
without a matching construct signature, with a private modifier, or marked
internal; the first remaining overload becomes the canonical constructor
entry, carrying that overload's metadata and exactly one signature — its own,
with the return type omitted.  Later overloads contribute nothing: the loop
stops after the first accepted overload. -/
theorem getdocs_c6_theorem {Desc : Type} (cxId : String)
    (pre post : List (CtorDecl Desc)) (c : CtorDecl Desc) (sig : MSignature Desc)
    (hpre : ∀ c' ∈ pre, skippedCtor c' = true)
    (hsig : c.hasSignature = some sig)
    (hpriv : c.modPrivate = false)
    (hint : ctorDescInternal c = false) :
    ctorScan cxId (pre ++ c :: post) =
      some ⟨"constructor", cxId ++ ".constructor", "Function", c.description,
        [getCallSignatureC sig "constructor" true]⟩ ∧
    (getCallSignatureC sig "constructor" true).returns = none := by
  constructor
  · induction pre with
    | nil =>
      simp only [List.nil_append, ctorScan]
      rw [hsig]
      simp only [hpriv, Bool.false_eq_true, if_false, hint]
    | cons p pre' ih =>
      have hskip := hpre p (List.mem_cons_self _ _)
      have hrest : ∀ c' ∈ pre', skippedCtor c' = true :=
        fun c' hc' => hpre c' (List.mem_cons_of_mem _ hc')
      simp only [List.cons_append, ctorScan]
      unfold skippedCtor at hskip
      cases hps : p.hasSignature with
      | none => exact ih hrest
      | some s =>
        rw [hps] at hskip
        simp only [Option.isSome_some, Option.isNone_some, Bool.false_or] at hskip
        rcases Bool.or_eq_true_iff.1 hskip with hp | hd
        · dsimp only
          rw [if_pos hp]
          exact ih hrest
        · dsimp only
          by_cases hp : p.modPrivate = true
          · rw [if_pos hp]
            exact ih hrest
          · rw [if_neg hp, if_pos hd]
            exact ih hrest
  · rfl

/-- Witness for `getdocs_c6_theorem`: a private first overload is skipped, the
public second becomes the sole constructor entry, return type omitted. -/
theorem getdocs_c6_witness :
    ctorScan "C" ([(⟨some ⟨none, ["x"], some "R0"⟩, true, none⟩ : CtorDecl String)] ++
        (⟨some ⟨none, ["a"], some "R1"⟩, false, none⟩ : CtorDecl String) :: []) =
      some ⟨"constructor", "C" ++ ".constructor", "Function", none,
        [getCallSignatureC (⟨none, ["a"], some "R1"⟩ : MSignature String) "constructor" true]⟩ ∧
    (getCallSignatureC (⟨none, ["a"], some "R1"⟩ : MSignature String) "constructor" true).returns
      = none :=
  getdocs_c6_theorem "C" [⟨some ⟨none, ["x"], some "R0"⟩, true, none⟩] []
    ⟨some ⟨none, ["a"], some "R1"⟩, false, none⟩ ⟨none, ["a"], some "R1"⟩
    (by decide) rfl rfl rfl

/-! ## The structural-recursion guard
(`gettingObjectTypes`, line 70, and `Context.getObjectType`, lines 278-325)

A semantic type graph for the structural fragment: types are indices into a
finite universe of shapes.  A shape tagged `"object"` is a structural object
type whose properties map names to type ids (every other resolver category is
collapsed to a leaf, and for the stateful variant the tag `"unsupported"`
marks a type on which `getType` would throw, line 275).  The pure variant
(`getTypeG`/`getObjectTypeG`) passes the guard stack as an argument and is a
*total* function — its acceptance by the termination checker is the
termination half of the claim: the measure is the number of universe types
not yet on the stack, which strictly decreases at the push of line 280. -/

/-- One semantic type shape. -/
structure SShape where
  tag : String
  props : List (String × Nat)

/-- A resolved description tree node: a leaf tag, or an object node with an
optional property map (`OTree.objNode none` is the bare `{type: "Object"}` of
the guard, line 279, and of an object without gathered properties,
lines 318-320). -/
inductive OTree where
  | leaf (tag : String)
  | objNode (props : Option (List (String × OTree)))

/-- Number of universe types not on the guard stack: the termination measure
for the guarded recursion. -/
def guardMeasure (univ : List SShape) (stack : List Nat) : Nat :=
  ((Finset.range univ.length).filter (fun x => x ∉ stack)).card

theorem guardMeasure_push {univ : List SShape} {stack : List Nat} {t : Nat}
    (ht : t < univ.length) (hnot : t ∉ stack) :
    guardMeasure univ (t :: stack) < guardMeasure univ stack := by
  apply Finset.card_lt_card
  rw [Finset.ssubset_iff_of_subset]
  · exact ⟨t, by simp [ht, hnot], by simp⟩
  · intro x hx
    simp only [Finset.mem_filter, Finset.mem_range, List.mem_cons] at hx ⊢
    exact ⟨hx.1, fun hmem => hx.2 (Or.inr hmem)⟩

mutual

/-- `Context.getType` restricted to the structural dispatch (lines 228-265):
an `"object"` shape resolves through `getObjectType`, anything else is a
leaf. -/
def getTypeG (univ : List SShape) (stack : List Nat) (t : Nat) : OTree :=
  if ht : t < univ.length then
    if (univ.get ⟨t, ht⟩).tag == "object" then getObjectTypeG univ stack t ht
    else OTree.leaf (univ.get ⟨t, ht⟩).tag
  else OTree.leaf "out-of-model"
termination_by (guardMeasure univ stack, 1, 0)
decreasing_by
  simp_wf
  apply Prod.Lex.right
  exact Prod.Lex.left _ _ (by omega)

/-- `Context.getObjectType` (lines 278-325), recursion skeleton: the guard of
line 279 returns bare `{type: "Object"}` for a type already being resolved;
otherwise the type is pushed (line 280) and the properties are gathered under
the extended stack (line 318), with no `properties` field when nothing was
gathered (lines 99/320); the `finally` pop of line 323 is the scope of the
extended argument here (the stateful variant below makes it explicit). -/
def getObjectTypeG (univ : List SShape) (stack : List Nat) (t : Nat)
    (ht : t < univ.length) : OTree :=
  if t ∈ stack then OTree.objNode none
  else
    let resolved := resolvePropsG univ (t :: stack) (univ.get ⟨t, ht⟩).props
    OTree.objNode (if resolved.isEmpty then none else some resolved)
termination_by (guardMeasure univ stack, 0, 0)
decreasing_by
  simp_wf
  exact Prod.Lex.left _ _ (guardMeasure_push ht (by assumption))

/-- Resolve each property's type under the given stack. -/
def resolvePropsG (univ : List SShape) (stack : List Nat) :
    List (String × Nat) → List (String × OTree)
  | [] => []
  | (n, t') :: rest => (n, getTypeG univ stack t') :: resolvePropsG univ stack rest
termination_by props => (guardMeasure univ stack, 2, props.length)
decreasing_by
  all_goals simp_wf
  · apply Prod.Lex.right
    exact Prod.Lex.left _ _ (by omega)
  · apply Prod.Lex.right
    apply Prod.Lex.right
    omega

end

/-- Each declared property appears, resolved, in the gathered map. -/
theorem resolvePropsG_mem (univ : List SShape) (stack : List Nat) (nm : String) (t' : Nat) :
    ∀ props : List (String × Nat), (nm, t') ∈ props →
      (nm, getTypeG univ stack t') ∈ resolvePropsG univ stack props := by
  intro props
  induction props with
  | nil => intro h; simp at h
  | cons p rest ih =>
    intro h
    rcases List.mem_cons.1 h with rfl | h'
    · rw [resolvePropsG]
      exact List.mem_cons_self _ _
    · rcases p with ⟨n0, t0⟩
      rw [resolvePropsG]
      exact List.mem_cons_of_mem _ (ih h')

/-- **C1, proved.**  Resolving a structural object type terminates — the
guarded recursion `getTypeG`/`getObjectTypeG` is accepted as a total function
on the strictly decreasing measure `guardMeasure` (types not yet on the
stack) — and at every self-referential position the guard short-circuits: if
a property of the object type `t` refers to a type `t'` that is already being
resolved (`t'` on the extended stack — covering direct self-reference
`t' = t` and transitive cycles through the outer stack) and is itself a
structural object type, then the finite description tree for `t` carries at
that property the bare `Object` node, `OTree.objNode none`. -/
theorem getdocs_c1_theorem (univ : List SShape) (stack : List Nat) (t : Nat)
    (ht : t < univ.length) (hguard : t ∉ stack) (nm : String) (t' : Nat)
    (hprop : (nm, t') ∈ (univ.get ⟨t, ht⟩).props)
    (ht' : t' < univ.length)
    (htag : (univ.get ⟨t', ht'⟩).tag = "object")
    (hre : t' ∈ t :: stack) :
    ∃ props', getObjectTypeG univ stack t ht = OTree.objNode (some props') ∧
      (nm, OTree.objNode none) ∈ props' := by
  have hbare : getTypeG univ (t :: stack) t' = OTree.objNode none := by
    rw [getTypeG, dif_pos ht',
      if_pos (by simp only [List.get_eq_getElem] at htag; simp [htag]),
      getObjectTypeG, if_pos hre]
  have hmem := resolvePropsG_mem univ (t :: stack) nm t' (univ.get ⟨t, ht⟩).props hprop
  rw [hbare] at hmem
  have hne : (resolvePropsG univ (t :: stack) (univ.get ⟨t, ht⟩).props).isEmpty = false := by
    rcases hl : resolvePropsG univ (t :: stack) (univ.get ⟨t, ht⟩).props with _ | ⟨x, xs⟩
    · rw [hl] at hmem
      simp at hmem
    · rfl
  refine ⟨resolvePropsG univ (t :: stack) (univ.get ⟨t, ht⟩).props, ?_, hmem⟩
  rw [getObjectTypeG, if_neg hguard]
  simp only [hne, Bool.false_eq_true, if_false]

/-- A one-type universe whose single object type refers to itself. -/
def univSelf : List SShape := [⟨"object", [("self", 0)]⟩]

/-- Witness for `getdocs_c1_theorem`: the direct self-reference resolves to a
finite tree with a bare `Object` at the self position. -/
theorem getdocs_c1_witness :
    ∃ props', getObjectTypeG univSelf [] 0 (by decide) = OTree.objNode (some props') ∧
      ("self", OTree.objNode none) ∈ props' :=
  getdocs_c1_theorem univSelf [] 0 (by decide) (by decide) "self" 0 (by decide)
    (by decide) (by decide) (by decide)

/-! ## Guard-stack restoration on all exit paths (`gettingObjectTypes`)

The stateful variant threads the global guard array explicitly: each function
returns the result (or the thrown error) *and* the stack as it stands after
the call, exactly as the mutable `gettingObjectTypes` evolves —
`getObjectType` pushes (line 280), the body mutates the global through its
recursive calls, and the `finally` of line 323 pops the top of whatever stack
the body left behind, on the value paths and the error path alike.  Explicit
fuel (`none` = out of fuel) stands in for the termination already established
for `getTypeG`; the restoration property holds for every fuel. -/

/-- The property list of a type id (empty outside the universe). -/
def propsOf (univ : List SShape) (t : Nat) : List (String × Nat) :=
  match univ.get? t with
  | some s => s.props
  | none => []

mutual

/-- Stateful `getType` over the structural fragment: leaves return without
touching the stack; a shape tagged `"unsupported"` models the fatal
`Unsupported type` throw of line 275 (as does an id outside the universe),
which also leaves the stack untouched. -/
def getTypeS (univ : List SShape) : Nat → List Nat → Nat →
    Option (Except String OTree × List Nat)
  | 0, _, _ => none
  | fuel + 1, stack, t =>
    if ht : t < univ.length then
      if (univ.get ⟨t, ht⟩).tag == "object" then getObjectTypeS univ fuel stack t
      else if (univ.get ⟨t, ht⟩).tag == "unsupported" then
        some (.error "Unsupported type", stack)
      else some (.ok (OTree.leaf (univ.get ⟨t, ht⟩).tag), stack)
    else some (.error "Unsupported type", stack)

/-- Stateful `getObjectType` (lines 278-325): guard (line 279, no push),
push (line 280), body under the pushed stack, and the `finally` pop
(line 323) applied to the stack the body returns — on the ok path *and* on
the error path. -/
def getObjectTypeS (univ : List SShape) : Nat → List Nat → Nat →
    Option (Except String OTree × List Nat)
  | 0, _, _ => none
  | fuel + 1, stack, t =>
    if t ∈ stack then some (.ok (OTree.objNode none), stack)
    else
      match resolvePropsS univ fuel (t :: stack) (propsOf univ t) with
      | none => none
      | some (.ok resolved, stack') =>
        some (.ok (OTree.objNode (if resolved.isEmpty then none else some resolved)),
          stack'.tail)
      | some (.error e, stack') => some (.error e, stack'.tail)

/-- Stateful property gathering: the stack returned by one resolution is the
stack the next one starts from (global-mutation semantics); a thrown error
aborts the iteration and propagates with the stack as it stood. -/
def resolvePropsS (univ : List SShape) : Nat → List Nat → List (String × Nat) →
    Option (Except String (List (String × OTree)) × List Nat)
  | 0, _, _ => none
  | _ + 1, stack, [] => some (.ok [], stack)
  | fuel + 1, stack, (n, t') :: rest =>
    match getTypeS univ fuel stack t' with
    | none => none
    | some (.error e, s1) => some (.error e, s1)
    | some (.ok v, s1) =>
      match resolvePropsS univ fuel s1 rest with
      | none => none
      | some (.error e, s2) => some (.error e, s2)
      | some (.ok vs, s2) => some (.ok ((n, v) :: vs), s2)

end

/-- Mutual-induction core: all three stateful functions return the stack they
were given, whether they produce a value or an error. -/
theorem stackRestore (univ : List SShape) : ∀ fuel : Nat,
    (∀ stack t r s', getTypeS univ fuel stack t = some (r, s') → s' = stack) ∧
    (∀ stack t r s', getObjectTypeS univ fuel stack t = some (r, s') → s' = stack) ∧
    (∀ stack props r s', resolvePropsS univ fuel stack props = some (r, s') → s' = stack) := by
  intro fuel
  induction fuel with
  | zero =>
    refine ⟨?_, ?_, ?_⟩
    · intro stack x r s' h
      rw [show getTypeS univ 0 stack x = none from rfl] at h
      cases h
    · intro stack x r s' h
      rw [show getObjectTypeS univ 0 stack x = none from rfl] at h
      cases h
    · intro stack props r s' h
      rw [show resolvePropsS univ 0 stack props = none from rfl] at h
      cases h
  | succ fuel ih =>
    obtain ⟨ihT, ihO, ihP⟩ := ih
    refine ⟨?_, ?_, ?_⟩
    · intro stack t r s' h
      rw [getTypeS] at h
      by_cases ht : t < univ.length
      · rw [dif_pos ht] at h
        by_cases hobj : ((univ.get ⟨t, ht⟩).tag == "object") = true
        · rw [if_pos hobj] at h
          exact ihO stack t r s' h
        · rw [if_neg hobj] at h
          by_cases huns : ((univ.get ⟨t, ht⟩).tag == "unsupported") = true
          · rw [if_pos huns] at h
            cases h
            rfl
          · rw [if_neg huns] at h
            cases h
            rfl
      · rw [dif_neg ht] at h
        cases h
        rfl
    · intro stack t r s' h
      rw [getObjectTypeS] at h
      by_cases hmem : t ∈ stack
      · rw [if_pos hmem] at h
        cases h
        rfl
      · rw [if_neg hmem] at h
        cases hres : resolvePropsS univ fuel (t :: stack) (propsOf univ t) with
        | none => rw [hres] at h; cases h
        | some pr =>
          rcases pr with ⟨r0, stack'⟩
          have hst : stack' = t :: stack := by
            cases r0 with
            | error e => exact ihP _ _ _ _ hres
            | ok vs => exact ihP _ _ _ _ hres
          rw [hres] at h
          cases r0 with
          | error e =>
            dsimp only at h
            cases h
            rw [hst]
            rfl
          | ok vs =>
            dsimp only at h
            cases h
            rw [hst]
            rfl
    · intro stack props r s' h
      cases props with
      | nil =>
        rw [resolvePropsS] at h
        cases h
        rfl
      | cons p rest =>
        rcases p with ⟨n, t'⟩
        rw [resolvePropsS] at h
        cases hget : getTypeS univ fuel stack t' with
        | none => rw [hget] at h; cases h
        | some pr =>
          rcases pr with ⟨r1, s1⟩
          have hs1 : s1 = stack := ihT _ _ _ _ hget
          rw [hget] at h
          cases r1 with
          | error e =>
            dsimp only at h
            cases h
            exact hs1
          | ok v =>
            dsimp only at h
            cases hrest : resolvePropsS univ fuel s1 rest with
            | none => rw [hrest] at h; cases h
            | some pr2 =>
              rcases pr2 with ⟨r2, s2⟩
              have hs2 : s2 = s1 := ihP _ _ _ _ hrest
              rw [hrest] at h
              cases r2 with
              | error e =>
                dsimp only at h
                cases h
                exact hs2.trans hs1
              | ok vs =>
                dsimp only at h
                cases h
                exact hs2.trans hs1

/-- **C8, proved.**  The recursion-guard stack is restored on every exit path
of `getObjectType` (and of `getType`, through which it recurses): whatever a
call returns — a resolved description or a propagated fatal error — the guard
stack afterwards equals the stack before the call.  In particular a top-level
call entered with an empty stack leaves it empty even when it aborts, so an
aborted call cannot poison subsequent calls. -/
theorem getdocs_c8_theorem (univ : List SShape) (fuel : Nat) :
    (∀ stack t r s', getObjectTypeS univ fuel stack t = some (r, s') → s' = stack) ∧
    (∀ stack t r s', getTypeS univ fuel stack t = some (r, s') → s' = stack) :=
  ⟨(stackRestore univ fuel).2.1, (stackRestore univ fuel).1⟩

/-- A universe whose object type has a property of a type on which `getType`
throws. -/
def univErr : List SShape := [⟨"object", [("bad", 1)]⟩, ⟨"unsupported", []⟩]

/-- Witness for `getdocs_c8_theorem` on the fatal-error path: the call aborts
with the error, and the guard stack is empty again. -/
theorem getdocs_c8_witness :
    getObjectTypeS univErr 5 [] 0 = some (.error "Unsupported type", []) ∧
    ([] : List Nat) = [] :=
  ⟨rfl, (getdocs_c8_theorem univErr 5).1 [] 0 (.error "Unsupported type") [] rfl⟩

/-! ## Comment extraction (`getComments`, lines 586-624)

The scanner walks the trivia text in front of a declaration.  Character
classes are modelled over their ASCII members (`isWhiteSpaceLike`/`isLineBreak`
from the compiler API, `\s` in the regexes); the sources under test contain
only these. -/

/-- ASCII whitespace (space, tab, line feed, carriage return, vertical tab,
form feed). -/
def isSpaceChar (c : Char) : Bool :=
  c == ' ' || c == '\t' || c == '\n' || c == '\r' || c == '\x0b' || c == '\x0c'

/-- `isLineBreak`. -/
def isLineBreakC (c : Char) : Bool := c == '\n' || c == '\r'

/-- `/\S/.test(lines[lines.length - 1])` guarded by `lines.length`
(line 595). -/
def lastNonBlank (lines : List String) : Bool :=
  match lines.getLast? with
  | some l => l.toList.any (fun c => !isSpaceChar c)
  | none => false

/-- The `add` closure of lines 592-598: on a pending blank line, push one
empty separator line when something non-blank was accumulated; then push the
line and clear the flag. -/
def addLine : List String × Bool → String → List String × Bool
  | (lines, blankLine), line =>
    if blankLine then
      ((if lastNonBlank lines then lines ++ [""] else lines) ++ [line], false)
    else (lines ++ [line], false)

/-- The block-comment body scan of lines 610-614: everything up to `*/`
(or the end of text), and the remainder after skipping the two closing
characters. -/
def untilStarSlash : List Char → List Char × List Char
  | [] => ([], [])
  | '*' :: '/' :: rest => ([], rest)
  | c :: rest =>
    let (a, b) := untilStarSlash rest
    (c :: a, b)

/-- The scanning loop of lines 600-622.  State is (accumulated lines, pending
blank-line flag).  `///`-comments add their text, `//` is skipped, `/** … */`
adds its body, `/* … */` is skipped, whitespace advances (two consecutive
line feeds set the blank-line flag, line 618), anything else stops the scan.
Fuel is loop bookkeeping (each iteration consumes at least one character, so
`length + 1` always suffices); on a lone slash the JavaScript loop would spin
forever — trivia never contains one, and the model stops there. -/
def scanC : Nat → List Char → List String × Bool → List String
  | 0, _, st => st.1
  | fuel + 1, text, st =>
    match text with
    | [] => st.1
    | '/' :: rest =>
      match rest with
      | '/' :: rest2 =>
        let doc := rest2.head? == some '/'
        let body := if doc then rest2.tail else rest2
        let content := body.takeWhile (fun c => !isLineBreakC c)
        let after := body.dropWhile (fun c => !isLineBreakC c)
        scanC fuel after (if doc then addLine st (String.mk content) else st)
      | '*' :: rest2 =>
        let doc := rest2.head? == some '*'
        let body := if doc then rest2.tail else rest2
        let res := untilStarSlash body
        scanC fuel res.2 (if doc then addLine st (String.mk res.1) else st)
      | _ => st.1
    | c :: rest =>
      if isSpaceChar c then
        scanC fuel rest (st.1, st.2 || (c == '\n' && rest.head? == some '\n'))
      else st.1

/-! ## Comment normalization (`stripComment`, lines 626-668) -/

/-- `[\s\*]` — the decoration class of the strip regexes. -/
def wsStar (c : Char) : Bool := isSpaceChar c || c == '*'

/-- `line.match(/^[\s\*]*/)![0]` (line 628). -/
def lineHeadOf (s : String) : String := String.mk (s.toList.takeWhile wsStar)

/-- `line.replace(/\s+$/, "")`. -/
def rtrim (s : String) : String :=
  String.mk (s.toList.reverse.dropWhile isSpaceChar).reverse

/-- `line.replace(/^[\s\*]*/, "")`. -/
def stripLeadingWsStar (s : String) : String :=
  String.mk (s.toList.dropWhile wsStar)

/-- Character-by-character common prefix (the `same` loop of lines 633-635;
a shorter `lineHead` stops the loop through the code-unit mismatch). -/
def commonPrefix : List Char → List Char → List Char
  | x :: a, y :: b => if x == y then x :: commonPrefix a b else []
  | _, _ => []

/-- One step of the head computation (lines 628-637): lines consisting
entirely of decoration are ignored; the first decorated line seeds the head,
later ones shrink it to the common prefix. -/
def headStep (h : Option String) (line : String) : Option String :=
  let lineHead := lineHeadOf line
  if lineHead != line then
    match h with
    | none => some lineHead
    | some hd => some (String.mk (commonPrefix hd.toList lineHead.toList))
  else h

/-- The head loop of lines 627-638 (`i = 1`: the first line is ignored). -/
def computeHead (lines : List String) : Option String :=
  (lines.drop 1).foldl headStep none

/-- Lines 639-644: cut the head's trailing whitespace down so that it leaves
at least the first line's indentation. -/
def adjustHead (lines : List String) : Option String → Option String
  | none => none
  | some hd =>
    let startIndent := (((lines.headD "").toList).takeWhile isSpaceChar).length
    let trailing := (hd.toList.reverse.takeWhile isSpaceChar).length
    if trailing > startIndent then
      some (String.mk (hd.toList.take (hd.length - (trailing - startIndent))))
    else some hd

/-- The first-line loop of lines 648-655: find the longest suffix of the head
(`head.slice(j)`, `j < head.length`) that the line starts with, and drop it. -/
def firstStripAux : List Char → List Char → Option (List Char)
  | [], _ => none
  | c :: rest, line =>
    if List.isPrefixOf (c :: rest) line then some (line.drop (c :: rest).length)
    else firstStripAux rest line

/-- The per-line rewrite of lines 646-663. -/
def rewriteLine (hd? : Option String) (i : Nat) (line0 : String) : String :=
  let line := rtrim line0
  match hd?, i with
  | none, _ => stripLeadingWsStar line
  | some hd, 0 =>
    match firstStripAux hd.toList line.toList with
    | some l' => String.mk l'
    | none => stripLeadingWsStar line
  | some hd, _ + 1 =>
    if line.length < hd.length then "" else String.mk (line.toList.drop hd.length)

/-- The rewrite loop, carrying the JavaScript loop index. -/
def rewriteLines (hd? : Option String) : Nat → List String → List String
  | _, [] => []
  | i, l :: rest => rewriteLine hd? i l :: rewriteLines hd? (i + 1) rest

/-- `lines.join("\n")`. -/
def joinLines : List String → String
  | [] => ""
  | [l] => l
  | l :: rest => l ++ "\n" ++ joinLines rest

/-- `stripComment` (lines 626-668): compute and adjust the common decoration
head, rewrite every line, pop trailing and shift leading empty lines, join. -/
def stripCommentM (lines : List String) : String :=
  let hd := adjustHead lines (computeHead lines)
  let rewritten := rewriteLines hd 0 lines
  let t1 := (rewritten.reverse.dropWhile (fun l => l == "")).reverse
  let t2 := t1.dropWhile (fun l => l == "")
  joinLines t2

/-- `getComments` (lines 586-624) on the trivia text in front of a
declaration: scan, then strip. -/
def getCommentsM (trivia : String) : String :=
  stripCommentM (scanC (trivia.toList.length + 1) trivia.toList ([], false))

/-- The line decomposition of a produced string (how a second `stripComment`
application would see its input). -/
def splitAux : List Char → List Char → List String
  | [], acc => [String.mk acc.reverse]
  | c :: rest, acc =>
    if c = '\n' then String.mk acc.reverse :: splitAux rest []
    else splitAux rest (c :: acc)

/-- Split a string into its lines. -/
def splitLinesM (s : String) : List String := splitAux s.toList []

/-- **C4, counterexample.**  Trivia with a doc-comment run, a blank line, and
a second doc-comment run before the declaration.  The claim says the blank
line discards everything accumulated before it, which would leave `"two"`;
the code instead inserts one empty separator line (lines 593-596), so both
runs survive as `"one\n\ntwo"`. -/
theorem getdocs_c4_counterexample :
    getCommentsM "/// one\n\n/// two\nx" = "one\n\ntwo" ∧
    "one\n\ntwo" ≠ "two" := by
  constructor
  · decide
  · decide

/-- **C4, amended claim, proved.**  A blank source line before a
documentation-comment run does not discard the earlier accumulation: when the
previously accumulated text is non-blank, the normalizer inserts exactly one
empty separator line before the new run's first line (and inserts nothing
when nothing non-blank was accumulated), so the nearest run and all earlier
runs survive, separated by blank lines — as the concrete two-run extraction
shows. -/
theorem getdocs_c4_theorem :
    (∀ (lines : List String) (line : String), lastNonBlank lines = true →
       addLine (lines, true) line = (lines ++ ["", line], false)) ∧
    (∀ (lines : List String) (line : String), lastNonBlank lines = false →
       addLine (lines, true) line = (lines ++ [line], false)) ∧
    getCommentsM "/// one\n\n/// two\nx" = "one\n\ntwo" := by
  refine ⟨?_, ?_, by decide⟩
  · intro lines line h
    simp [addLine, h]
  · intro lines line h
    simp [addLine, h]

/-- Witness for `getdocs_c4_theorem`: a pending blank line after `"one"`
inserts one separator before `"two"`. -/
theorem getdocs_c4_witness :
    addLine (["one"], true) "two" = (["one", "", "two"], false) :=
  getdocs_c4_theorem.1 ["one"] "two" (by decide)

/-! ### Fixed points of the prefix-strip -/

/-- Rebuilding a string from its character list is the identity. -/
theorem mk_toList (s : String) : String.mk s.toList = s := rfl

theorem dropWhile_eq_self_of_takeWhile_eq_nil {α : Type} (p : α → Bool) (xs : List α)
    (h : xs.takeWhile p = []) : xs.dropWhile p = xs := by
  cases xs with
  | nil => rfl
  | cons x rest =>
    cases hp : p x with
    | true => rw [List.takeWhile_cons, hp] at h; simp at h
    | false => rw [List.dropWhile_cons, hp]; simp

/-- A line with no leading decoration is unchanged by the leading strip. -/
theorem stripLeadingWsStar_clean (l : String) (h : lineHeadOf l = "") :
    stripLeadingWsStar l = l := by
  have hnil : l.toList.takeWhile wsStar = [] := by
    have := congrArg String.toList h
    simpa [lineHeadOf] using this
  rw [stripLeadingWsStar, dropWhile_eq_self_of_takeWhile_eq_nil _ _ hnil, mk_toList]

/-- A right-trimmed, undecorated line passes the per-line rewrite unchanged,
whether the head is absent or empty, at any line index. -/
theorem rewriteLine_clean (hd? : Option String) (hhd : hd? = none ∨ hd? = some "")
    (i : Nat) (l : String) (hr : rtrim l = l) (hh : lineHeadOf l = "") :
    rewriteLine hd? i l = l := by
  have hstrip := stripLeadingWsStar_clean l hh
  rcases hhd with rfl | rfl
  · simp [rewriteLine, hr, hstrip]
  · cases i with
    | zero => simp [rewriteLine, hr, firstStripAux, hstrip]
    | succ n => simp [rewriteLine, hr, mk_toList]

theorem rewriteLines_clean (hd? : Option String) (hhd : hd? = none ∨ hd? = some "") :
    ∀ (i : Nat) (lines : List String),
      (∀ l ∈ lines, rtrim l = l) → (∀ l ∈ lines, lineHeadOf l = "") →
      rewriteLines hd? i lines = lines := by
  intro i lines
  induction lines generalizing i with
  | nil => intro _ _; rfl
  | cons a rest ih =>
    intro h1 h2
    rw [rewriteLines,
      rewriteLine_clean hd? hhd i a (h1 a (List.mem_cons_self _ _)) (h2 a (List.mem_cons_self _ _)),
      ih (i + 1) (fun l hl => h1 l (List.mem_cons_of_mem _ hl))
        (fun l hl => h2 l (List.mem_cons_of_mem _ hl))]

/-- Over undecorated lines the head computation yields nothing or the empty
head. -/
theorem foldl_headStep_clean :
    ∀ (ls : List String), (∀ l ∈ ls, lineHeadOf l = "") →
      ∀ acc, (acc = none ∨ acc = some "") →
        (ls.foldl headStep acc = none ∨ ls.foldl headStep acc = some "") := by
  intro ls
  induction ls with
  | nil =>
    intro _ acc hacc
    exact hacc
  | cons a rest ih =>
    intro h2 acc hacc
    rw [List.foldl_cons]
    refine ih (fun l hl => h2 l (List.mem_cons_of_mem _ hl)) _ ?_
    have hha : lineHeadOf a = "" := h2 a (List.mem_cons_self _ _)
    by_cases he : a = ""
    · subst he
      unfold headStep
      simp [hha]
      exact hacc
    · unfold headStep
      simp only [hha]
      rw [if_pos (by simp [bne]; exact fun hc => he hc.symm)]
      rcases hacc with rfl | rfl
      · right; rfl
      · right
        simp [commonPrefix]
  done

theorem dropWhile_empty_eq_self_of_head (l : List String) (h : l.head? ≠ some "") :
    l.dropWhile (fun s => s == "") = l := by
  cases l with
  | nil => rfl
  | cons a rest =>
    have ha : (a == "") = false := by
      simp only [List.head?] at h
      simp only [beq_eq_false_iff_ne, ne_eq]
      intro hc
      exact h (by rw [hc])
    rw [List.dropWhile_cons, ha]
    simp

/-- Right-trimmed, undecorated line lists without leading/trailing blank
lines are fixed points of `stripComment` (up to the final join). -/
theorem stripCommentM_clean (lines : List String)
    (h1 : ∀ l ∈ lines, rtrim l = l)
    (h2 : ∀ l ∈ lines, lineHeadOf l = "")
    (h3 : lines.head? ≠ some "")
    (h4 : lines.getLast? ≠ some "") :
    stripCommentM lines = joinLines lines := by
  have hch : computeHead lines = none ∨ computeHead lines = some "" := by
    unfold computeHead
    exact foldl_headStep_clean _ (fun l hl => h2 l (List.drop_subset 1 lines hl)) none (Or.inl rfl)
  have hadj : adjustHead lines (computeHead lines) = none ∨
      adjustHead lines (computeHead lines) = some "" := by
    rcases hch with h | h <;> rw [h]
    · left
      rfl
    · right
      simp [adjustHead]
  have hrw : rewriteLines (adjustHead lines (computeHead lines)) 0 lines = lines :=
    rewriteLines_clean _ hadj 0 lines h1 h2
  show joinLines (List.dropWhile (fun l => l == "")
    (List.dropWhile (fun l => l == "")
      (rewriteLines (adjustHead lines (computeHead lines)) 0 lines).reverse).reverse) =
    joinLines lines
  rw [hrw]
  have ht1 : (lines.reverse.dropWhile (fun l => l == "")).reverse = lines := by
    rw [dropWhile_empty_eq_self_of_head _ (by rw [List.head?_reverse]; exact h4),
      List.reverse_reverse]
  rw [ht1, dropWhile_empty_eq_self_of_head lines h3]

theorem splitAux_ne_nil : ∀ (cs acc : List Char), splitAux cs acc ≠ [] := by
  intro cs
  induction cs with
  | nil => intro acc; simp [splitAux]
  | cons c rest ih =>
    intro acc
    rw [splitAux]
    by_cases hc : c = '\n'
    · rw [if_pos hc]
      simp
    · rw [if_neg hc]
      exact ih _

/-- Joining characters back from a string. -/
theorem mk_append (xs ys : List Char) : String.mk xs ++ String.mk ys = String.mk (xs ++ ys) :=
  rfl

theorem joinLines_splitAux : ∀ (cs acc : List Char),
    joinLines (splitAux cs acc) = String.mk (acc.reverse ++ cs) := by
  intro cs
  induction cs with
  | nil =>
    intro acc
    simp [splitAux, joinLines]
  | cons c rest ih =>
    intro acc
    rw [splitAux]
    by_cases hc : c = '\n'
    · rw [if_pos hc]
      obtain ⟨x, xs, hxx⟩ := List.exists_cons_of_ne_nil (splitAux_ne_nil rest [])
      rw [hxx]
      have hjoin : joinLines (String.mk acc.reverse :: x :: xs) =
          String.mk acc.reverse ++ "\n" ++ joinLines (x :: xs) := rfl
      rw [hjoin, ← hxx, ih []]
      rw [show ("\n" : String) = String.mk ['\n'] from rfl, mk_append, mk_append]
      subst hc
      simp
    · rw [if_neg hc, ih (c :: acc)]
      simp

theorem joinLines_splitLinesM (s : String) : joinLines (splitLinesM s) = s := by
  rw [splitLinesM, joinLines_splitAux]
  simp [mk_toList]

/-- **C9, counterexample.**  For the line list `["", " a"]` the first strip
produces `" a"` (the leading blank line is shifted away, and the head
adjustment of lines 639-644 reduces the common head to the empty string, so
the space survives); stripping the single-line output `[" a"]` again now
finds no head at all and applies the unconditional leading-decoration strip
of line 658, producing `"a"`.  The second application differs from the
first. -/
theorem getdocs_c9_counterexample :
    stripCommentM (splitLinesM (stripCommentM ["", " a"])) ≠ stripCommentM ["", " a"] := by
  decide

/-- **C9, amended claim, proved.**  The prefix-strip is idempotent on the
class of outputs whose lines carry no residual decoration: (i) any line list
whose lines are right-trimmed and start with no whitespace/asterisk, with no
leading or trailing blank line, is returned unchanged (joined); hence
(ii) whenever a first application's output decomposes into such lines, a
second application returns the same string.  (Idempotence does not hold
unconditionally: a first line that keeps leading whitespace relative to the
common head is stripped further by a second application, as the
counterexample shows.) -/
theorem getdocs_c9_theorem :
    (∀ lines : List String,
       (∀ l ∈ lines, rtrim l = l) → (∀ l ∈ lines, lineHeadOf l = "") →
       lines.head? ≠ some "" → lines.getLast? ≠ some "" →
       stripCommentM lines = joinLines lines) ∧
    (∀ ls : List String,
       (∀ l ∈ splitLinesM (stripCommentM ls), rtrim l = l) →
       (∀ l ∈ splitLinesM (stripCommentM ls), lineHeadOf l = "") →
       (splitLinesM (stripCommentM ls)).head? ≠ some "" →
       (splitLinesM (stripCommentM ls)).getLast? ≠ some "" →
       stripCommentM (splitLinesM (stripCommentM ls)) = stripCommentM ls) := by
  constructor
  · exact stripCommentM_clean
  · intro ls h1 h2 h3 h4
    rw [stripCommentM_clean _ h1 h2 h3 h4, joinLines_splitLinesM]

/-- Witness for `getdocs_c9_theorem`: a clean two-line comment is a fixed
point. -/
theorem getdocs_c9_witness :
    stripCommentM ["foo", "bar"] = joinLines ["foo", "bar"] :=
  getdocs_c9_theorem.1 ["foo", "bar"] (by decide) (by decide) (by decide) (by decide)
